import Mathlib

/-!
Verification of the schema-diff core of `database-structure-sync`.

The definitions below are a shallow embedding of the Rust sources:
  * `src-tauri/src/models/schema.rs` and `models/diff.rs` (data model),
  * `src-tauri/src/db/mysql.rs` and `db/postgres.rs` (the `SqlGenerator`
    implementations of the two dialect drivers),
  * `src-tauri/src/diff/comparator.rs` (`compare_schemas` / `compare_tables`).

Rust `String` is modelled by Lean `String`, `u32` counters by `Nat`
(the diff counter counts emitted items and never approaches `2^32` on
representable inputs), `Vec<T>` by `List T`, `Option<T>` by `Option T`.
A `HashMap` built by collecting a name-keyed iterator is modelled by
`lookupBy`, which returns the last element with the requested key, exactly
as repeated `HashMap::insert` lets later duplicates overwrite earlier ones.
-/

namespace DbSync

/-- Column model, from `models/schema.rs` (struct `Column`). -/
structure Column where
  name : String
  data_type : String
  nullable : Bool
  default_value : Option String
  auto_increment : Bool
  comment : Option String
  ordinal_position : Nat
deriving DecidableEq

/-- Primary key model, from `models/schema.rs` (struct `PrimaryKey`). -/
structure PrimaryKey where
  name : Option String
  columns : List String
deriving DecidableEq

/-- Index model, from `models/schema.rs` (struct `Index`). -/
structure Index where
  name : String
  columns : List String
  unique : Bool
  index_type : String
deriving DecidableEq

/-- Foreign key model, from `models/schema.rs` (struct `ForeignKey`). -/
structure ForeignKey where
  name : String
  columns : List String
  ref_table : String
  ref_columns : List String
  on_delete : String
  on_update : String
deriving DecidableEq

/-- Unique constraint model, from `models/schema.rs` (struct `UniqueConstraint`). -/
structure UniqueConstraint where
  name : String
  columns : List String
deriving DecidableEq

/-- Table model, from `models/schema.rs` (struct `TableSchema`). -/
structure TableSchema where
  name : String
  columns : List Column
  primary_key : Option PrimaryKey
  indexes : List Index
  foreign_keys : List ForeignKey
  unique_constraints : List UniqueConstraint
deriving DecidableEq

/-- Diff taxonomy, from `models/diff.rs` (enum `DiffType`); the source enum
has exactly these twelve variants and in particular no `ForeignKeyModified`
or `UniqueConstraintModified` variant. -/
inductive DiffType where
  | TableAdded
  | TableRemoved
  | ColumnAdded
  | ColumnRemoved
  | ColumnModified
  | IndexAdded
  | IndexRemoved
  | IndexModified
  | ForeignKeyAdded
  | ForeignKeyRemoved
  | UniqueConstraintAdded
  | UniqueConstraintRemoved
deriving DecidableEq

/-- One emitted diff, from `models/diff.rs` (struct `DiffItem`). -/
structure DiffItem where
  id : String
  diff_type : DiffType
  table_name : String
  object_name : Option String
  source_def : Option String
  target_def : Option String
  sql : String
  selected : Bool
deriving DecidableEq

/-- The `SqlGenerator` trait of `db/traits.rs`, as a record of the pure
string-building operations the comparator calls. -/
structure SqlGenerator where
  quote_identifier : String → String
  generate_create_table : TableSchema → String
  generate_drop_table : String → String
  generate_add_column : String → Column → String
  generate_drop_column : String → String → String
  generate_modify_column : String → Column → String
  generate_add_index : String → Index → String
  generate_drop_index : String → String → String
  generate_add_foreign_key : String → ForeignKey → String
  generate_drop_foreign_key : String → String → String
  generate_add_unique : String → UniqueConstraint → String
  generate_drop_unique : String → String → String

/-- The backquote character, the MySQL identifier delimiter. -/
def backquoteChar : Char := Char.ofNat 96

/-- The double-quote character, the Postgres identifier delimiter. -/
def dquoteChar : Char := Char.ofNat 34

/-- The single-quote character, used around MySQL comment literals. -/
def squoteChar : Char := Char.ofNat 39

/-- Character-level translation of Rust `str::replace` with a one-character
pattern: every occurrence of `pat` is replaced by the characters of `rep`. -/
def replaceCharList (pat : Char) (rep : List Char) : List Char → List Char
  | [] => []
  | c :: cs =>
    if c = pat then rep ++ replaceCharList pat rep cs
    else c :: replaceCharList pat rep cs

/-- String-level wrapper for `replaceCharList`, in Rust argument order
(`s.replace(pat, rep)`). -/
def replaceChar (s : String) (pat : Char) (rep : String) : String :=
  ⟨replaceCharList pat rep.data s.data⟩

namespace MySqlDriver

/-- From `db/mysql.rs::quote_identifier`: backtick-wrap, doubling embedded
backticks. -/
def quote_identifier (name : String) : String :=
  "`" ++ replaceChar name backquoteChar "``" ++ "`"

/-- Comma-separated list of quoted identifiers (`cols.iter().map(quote).join(", ")`). -/
def quotedList (cols : List String) : String :=
  String.intercalate ", " (cols.map quote_identifier)

/-- Column definition fragment used inside `generate_create_table`. -/
def columnDef (col : Column) : String :=
  let d := "  " ++ quote_identifier col.name ++ " " ++ col.data_type
  let d := if !col.nullable then d ++ " NOT NULL" else d
  let d := match col.default_value with
    | some v => d ++ " DEFAULT " ++ v
    | none => d
  let d := if col.auto_increment then d ++ " AUTO_INCREMENT" else d
  match col.comment with
  | some c => d ++ " COMMENT '" ++ replaceChar c squoteChar "''" ++ "'"
  | none => d

/-- From `db/mysql.rs::generate_create_table`. -/
def generate_create_table (table : TableSchema) : String :=
  let colParts := table.columns.map columnDef
  let pkParts := match table.primary_key with
    | some pk => ["  PRIMARY KEY (" ++ quotedList pk.columns ++ ")"]
    | none => []
  let idxParts := table.indexes.map (fun idx =>
    let idx_type := if idx.unique then "UNIQUE INDEX" else "INDEX"
    "  " ++ idx_type ++ " " ++ quote_identifier idx.name ++ " (" ++ quotedList idx.columns ++ ")")
  let ucParts := table.unique_constraints.map (fun uc =>
    "  CONSTRAINT " ++ quote_identifier uc.name ++ " UNIQUE (" ++ quotedList uc.columns ++ ")")
  let fkParts := table.foreign_keys.map (fun fk =>
    "  CONSTRAINT " ++ quote_identifier fk.name ++ " FOREIGN KEY (" ++ quotedList fk.columns
      ++ ") REFERENCES " ++ quote_identifier fk.ref_table ++ " (" ++ quotedList fk.ref_columns
      ++ ") ON DELETE " ++ fk.on_delete ++ " ON UPDATE " ++ fk.on_update)
  "CREATE TABLE " ++ quote_identifier table.name ++ " (\n"
    ++ String.intercalate ",\n" (colParts ++ pkParts ++ idxParts ++ ucParts ++ fkParts)
    ++ "\n);"

/-- From `db/mysql.rs::generate_drop_table`. -/
def generate_drop_table (table_name : String) : String :=
  "DROP TABLE " ++ quote_identifier table_name ++ ";"

/-- From `db/mysql.rs::generate_add_column`. -/
def generate_add_column (table : String) (column : Column) : String :=
  let sql := "ALTER TABLE " ++ quote_identifier table ++ " ADD COLUMN "
    ++ quote_identifier column.name ++ " " ++ column.data_type
  let sql := if !column.nullable then sql ++ " NOT NULL" else sql
  let sql := match column.default_value with
    | some v => sql ++ " DEFAULT " ++ v
    | none => sql
  let sql := if column.auto_increment then sql ++ " AUTO_INCREMENT" else sql
  let sql := match column.comment with
    | some c => sql ++ " COMMENT '" ++ replaceChar c squoteChar "''" ++ "'"
    | none => sql
  sql ++ ";"

/-- From `db/mysql.rs::generate_drop_column`. -/
def generate_drop_column (table : String) (column_name : String) : String :=
  "ALTER TABLE " ++ quote_identifier table ++ " DROP COLUMN " ++ quote_identifier column_name ++ ";"

/-- From `db/mysql.rs::generate_modify_column`. -/
def generate_modify_column (table : String) (column : Column) : String :=
  let sql := "ALTER TABLE " ++ quote_identifier table ++ " MODIFY COLUMN "
    ++ quote_identifier column.name ++ " " ++ column.data_type
  let sql := if !column.nullable then sql ++ " NOT NULL" else sql
  let sql := match column.default_value with
    | some v => sql ++ " DEFAULT " ++ v
    | none => sql
  let sql := if column.auto_increment then sql ++ " AUTO_INCREMENT" else sql
  let sql := match column.comment with
    | some c => sql ++ " COMMENT '" ++ replaceChar c squoteChar "''" ++ "'"
    | none => sql
  sql ++ ";"

/-- From `db/mysql.rs::generate_add_index`. -/
def generate_add_index (table : String) (index : Index) : String :=
  let idx_type := if index.unique then "UNIQUE INDEX" else "INDEX"
  "CREATE " ++ idx_type ++ " " ++ quote_identifier index.name ++ " ON "
    ++ quote_identifier table ++ " (" ++ quotedList index.columns ++ ");"

/-- From `db/mysql.rs::generate_drop_index` (MySQL repeats the table name). -/
def generate_drop_index (table : String) (index_name : String) : String :=
  "DROP INDEX " ++ quote_identifier index_name ++ " ON " ++ quote_identifier table ++ ";"

/-- From `db/mysql.rs::generate_add_foreign_key`. -/
def generate_add_foreign_key (table : String) (fk : ForeignKey) : String :=
  "ALTER TABLE " ++ quote_identifier table ++ " ADD CONSTRAINT " ++ quote_identifier fk.name
    ++ " FOREIGN KEY (" ++ quotedList fk.columns ++ ") REFERENCES " ++ quote_identifier fk.ref_table
    ++ " (" ++ quotedList fk.ref_columns ++ ") ON DELETE " ++ fk.on_delete
    ++ " ON UPDATE " ++ fk.on_update ++ ";"

/-- From `db/mysql.rs::generate_drop_foreign_key` (MySQL `DROP FOREIGN KEY`). -/
def generate_drop_foreign_key (table : String) (fk_name : String) : String :=
  "ALTER TABLE " ++ quote_identifier table ++ " DROP FOREIGN KEY " ++ quote_identifier fk_name ++ ";"

/-- From `db/mysql.rs::generate_add_unique`. -/
def generate_add_unique (table : String) (uc : UniqueConstraint) : String :=
  "ALTER TABLE " ++ quote_identifier table ++ " ADD CONSTRAINT " ++ quote_identifier uc.name
    ++ " UNIQUE (" ++ quotedList uc.columns ++ ");"

/-- From `db/mysql.rs::generate_drop_unique` (MySQL drops the backing index). -/
def generate_drop_unique (table : String) (uc_name : String) : String :=
  "ALTER TABLE " ++ quote_identifier table ++ " DROP INDEX " ++ quote_identifier uc_name ++ ";"

end MySqlDriver

/-- The MySQL driver packaged as the trait record. -/
def mysqlGen : SqlGenerator where
  quote_identifier := MySqlDriver.quote_identifier
  generate_create_table := MySqlDriver.generate_create_table
  generate_drop_table := MySqlDriver.generate_drop_table
  generate_add_column := MySqlDriver.generate_add_column
  generate_drop_column := MySqlDriver.generate_drop_column
  generate_modify_column := MySqlDriver.generate_modify_column
  generate_add_index := MySqlDriver.generate_add_index
  generate_drop_index := MySqlDriver.generate_drop_index
  generate_add_foreign_key := MySqlDriver.generate_add_foreign_key
  generate_drop_foreign_key := MySqlDriver.generate_drop_foreign_key
  generate_add_unique := MySqlDriver.generate_add_unique
  generate_drop_unique := MySqlDriver.generate_drop_unique

namespace PostgresDriver

/-- From `db/postgres.rs::quote_identifier`: double-quote-wrap, doubling
embedded double quotes. -/
def quote_identifier (name : String) : String :=
  "\"" ++ replaceChar name dquoteChar "\"\"" ++ "\""

/-- Comma-separated list of quoted identifiers. -/
def quotedList (cols : List String) : String :=
  String.intercalate ", " (cols.map quote_identifier)

/-- Column definition fragment used inside `generate_create_table`: the
stored type is replaced by `SERIAL` for auto-increment columns, and
`NOT NULL` is only emitted for non-nullable non-auto-increment columns. -/
def columnDef (col : Column) : String :=
  let data_type := if col.auto_increment then "SERIAL" else col.data_type
  let d := "  " ++ quote_identifier col.name ++ " " ++ data_type
  let d := if !col.nullable && !col.auto_increment then d ++ " NOT NULL" else d
  match col.default_value with
  | some v => d ++ " DEFAULT " ++ v
  | none => d

/-- From `db/postgres.rs::generate_create_table`: columns, primary key,
unique constraints and foreign keys inline, then one separate
`CREATE INDEX` statement per index appended after the table statement. -/
def generate_create_table (table : TableSchema) : String :=
  let colParts := table.columns.map columnDef
  let pkParts := match table.primary_key with
    | some pk => ["  PRIMARY KEY (" ++ quotedList pk.columns ++ ")"]
    | none => []
  let ucParts := table.unique_constraints.map (fun uc =>
    "  CONSTRAINT " ++ quote_identifier uc.name ++ " UNIQUE (" ++ quotedList uc.columns ++ ")")
  let fkParts := table.foreign_keys.map (fun fk =>
    "  CONSTRAINT " ++ quote_identifier fk.name ++ " FOREIGN KEY (" ++ quotedList fk.columns
      ++ ") REFERENCES " ++ quote_identifier fk.ref_table ++ " (" ++ quotedList fk.ref_columns
      ++ ") ON DELETE " ++ fk.on_delete ++ " ON UPDATE " ++ fk.on_update)
  let head := "CREATE TABLE " ++ quote_identifier table.name ++ " (\n"
    ++ String.intercalate ",\n" (colParts ++ pkParts ++ ucParts ++ fkParts)
    ++ "\n);"
  table.indexes.foldl (fun sql idx =>
    let idx_type := if idx.unique then "UNIQUE INDEX" else "INDEX"
    sql ++ "\nCREATE " ++ idx_type ++ " " ++ quote_identifier idx.name ++ " ON "
      ++ quote_identifier table.name ++ " (" ++ quotedList idx.columns ++ ");") head

/-- From `db/postgres.rs::generate_drop_table`. -/
def generate_drop_table (table_name : String) : String :=
  "DROP TABLE " ++ quote_identifier table_name ++ ";"

/-- From `db/postgres.rs::generate_add_column`: `SERIAL` substitution for
auto-increment columns, `NOT NULL` suppressed for them. -/
def generate_add_column (table : String) (column : Column) : String :=
  let data_type := if column.auto_increment then "SERIAL" else column.data_type
  let sql := "ALTER TABLE " ++ quote_identifier table ++ " ADD COLUMN "
    ++ quote_identifier column.name ++ " " ++ data_type
  let sql := if !column.nullable && !column.auto_increment then sql ++ " NOT NULL" else sql
  let sql := match column.default_value with
    | some v => sql ++ " DEFAULT " ++ v
    | none => sql
  sql ++ ";"

/-- From `db/postgres.rs::generate_drop_column`. -/
def generate_drop_column (table : String) (column_name : String) : String :=
  "ALTER TABLE " ++ quote_identifier table ++ " DROP COLUMN " ++ quote_identifier column_name ++ ";"

/-- From `db/postgres.rs::generate_modify_column`: type-only alter form. -/
def generate_modify_column (table : String) (column : Column) : String :=
  let data_type := if column.auto_increment then "SERIAL" else column.data_type
  "ALTER TABLE " ++ quote_identifier table ++ " ALTER COLUMN "
    ++ quote_identifier column.name ++ " TYPE " ++ data_type ++ ";"

/-- From `db/postgres.rs::generate_add_index`. -/
def generate_add_index (table : String) (index : Index) : String :=
  let idx_type := if index.unique then "UNIQUE INDEX" else "INDEX"
  "CREATE " ++ idx_type ++ " " ++ quote_identifier index.name ++ " ON "
    ++ quote_identifier table ++ " (" ++ quotedList index.columns ++ ");"

/-- From `db/postgres.rs::generate_drop_index` (table name unused). -/
def generate_drop_index (_table : String) (index_name : String) : String :=
  "DROP INDEX " ++ quote_identifier index_name ++ ";"

/-- From `db/postgres.rs::generate_add_foreign_key`. -/
def generate_add_foreign_key (table : String) (fk : ForeignKey) : String :=
  "ALTER TABLE " ++ quote_identifier table ++ " ADD CONSTRAINT " ++ quote_identifier fk.name
    ++ " FOREIGN KEY (" ++ quotedList fk.columns ++ ") REFERENCES " ++ quote_identifier fk.ref_table
    ++ " (" ++ quotedList fk.ref_columns ++ ") ON DELETE " ++ fk.on_delete
    ++ " ON UPDATE " ++ fk.on_update ++ ";"

/-- From `db/postgres.rs::generate_drop_foreign_key` (`DROP CONSTRAINT`). -/
def generate_drop_foreign_key (table : String) (fk_name : String) : String :=
  "ALTER TABLE " ++ quote_identifier table ++ " DROP CONSTRAINT " ++ quote_identifier fk_name ++ ";"

/-- From `db/postgres.rs::generate_add_unique`. -/
def generate_add_unique (table : String) (uc : UniqueConstraint) : String :=
  "ALTER TABLE " ++ quote_identifier table ++ " ADD CONSTRAINT " ++ quote_identifier uc.name
    ++ " UNIQUE (" ++ quotedList uc.columns ++ ");"

/-- From `db/postgres.rs::generate_drop_unique` (`DROP CONSTRAINT`). -/
def generate_drop_unique (table : String) (uc_name : String) : String :=
  "ALTER TABLE " ++ quote_identifier table ++ " DROP CONSTRAINT " ++ quote_identifier uc_name ++ ";"

end PostgresDriver

/-- The Postgres driver packaged as the trait record. -/
def postgresGen : SqlGenerator where
  quote_identifier := PostgresDriver.quote_identifier
  generate_create_table := PostgresDriver.generate_create_table
  generate_drop_table := PostgresDriver.generate_drop_table
  generate_add_column := PostgresDriver.generate_add_column
  generate_drop_column := PostgresDriver.generate_drop_column
  generate_modify_column := PostgresDriver.generate_modify_column
  generate_add_index := PostgresDriver.generate_add_index
  generate_drop_index := PostgresDriver.generate_drop_index
  generate_add_foreign_key := PostgresDriver.generate_add_foreign_key
  generate_drop_foreign_key := PostgresDriver.generate_drop_foreign_key
  generate_add_unique := PostgresDriver.generate_add_unique
  generate_drop_unique := PostgresDriver.generate_drop_unique

/-- Name-keyed lookup modelling a `HashMap` collected from a name-keyed
iterator: later duplicates overwrite earlier ones, so the lookup returns
the last element carrying the requested key. -/
def lookupBy {α : Type} (key : α → String) : List α → String → Option α
  | [], _ => none
  | x :: xs, n =>
    match lookupBy key xs n with
    | some y => some y
    | none => if key x = n then some x else none

/-- Key-presence test, modelling `HashMap::contains_key`. -/
def containsBy {α : Type} (key : α → String) (xs : List α) (n : String) : Bool :=
  (lookupBy key xs n).isSome

/-- One comparator loop: walk `xs`, and for every element on which the case
function fires, bump the id counter and emit the produced item with the new
counter value, exactly as each `for` loop in `comparator.rs` pushes a
`DiffItem` built from `id_counter.to_string()` after `id_counter += 1`. -/
def emitPass {α : Type} (f : α → Option (Nat → DiffItem)) : List α → Nat → List DiffItem × Nat
  | [], c => ([], c)
  | x :: xs, c =>
    match f x with
    | none => emitPass f xs c
    | some mk =>
      let r := emitPass f xs (c + 1)
      (mk (c + 1) :: r.1, r.2)

/-- Case function for the added-tables loop of `compare_schemas`
(comparator.rs lines 17-31). -/
def tableAddedCase (g : SqlGenerator) (target : List TableSchema) (t : TableSchema) :
    Option (Nat → DiffItem) :=
  if containsBy TableSchema.name target t.name then none
  else some (fun n =>
    { id := Nat.repr n, diff_type := DiffType.TableAdded, table_name := t.name,
      object_name := none, source_def := some (Nat.repr t.columns.length ++ " columns"),
      target_def := none, sql := g.generate_create_table t, selected := true })

/-- Case function for the removed-tables loop of `compare_schemas`
(comparator.rs lines 34-48). -/
def tableRemovedCase (g : SqlGenerator) (source : List TableSchema) (t : TableSchema) :
    Option (Nat → DiffItem) :=
  if containsBy TableSchema.name source t.name then none
  else some (fun n =>
    { id := Nat.repr n, diff_type := DiffType.TableRemoved, table_name := t.name,
      object_name := none, source_def := none,
      target_def := some (Nat.repr t.columns.length ++ " columns"),
      sql := g.generate_drop_table t.name, selected := true })

/-- Case function for the source-columns loop of `compare_tables`
(comparator.rs lines 71-99): absent from target emits `ColumnAdded`;
present but structurally different emits `ColumnModified`. -/
def columnCase (g : SqlGenerator) (tbl : String) (targetCols : List Column) (col : Column) :
    Option (Nat → DiffItem) :=
  match lookupBy Column.name targetCols col.name with
  | none => some (fun n =>
      { id := Nat.repr n, diff_type := DiffType.ColumnAdded, table_name := tbl,
        object_name := some col.name, source_def := some col.data_type, target_def := none,
        sql := g.generate_add_column tbl col, selected := true })
  | some target_col =>
    if col = target_col then none
    else some (fun n =>
      { id := Nat.repr n, diff_type := DiffType.ColumnModified, table_name := tbl,
        object_name := some col.name, source_def := some col.data_type,
        target_def := some target_col.data_type,
        sql := g.generate_modify_column tbl col, selected := true })

/-- Case function for the target-columns loop of `compare_tables`
(comparator.rs lines 101-115). -/
def columnRemovedCase (g : SqlGenerator) (tbl : String) (sourceCols : List Column) (col : Column) :
    Option (Nat → DiffItem) :=
  if containsBy Column.name sourceCols col.name then none
  else some (fun n =>
    { id := Nat.repr n, diff_type := DiffType.ColumnRemoved, table_name := tbl,
      object_name := some col.name, source_def := none, target_def := some col.data_type,
      sql := g.generate_drop_column tbl col.name, selected := true })

/-- Case function for the source-indexes loop of `compare_tables`
(comparator.rs lines 121-149): an index present in target under the same
name but structurally different produces `IndexModified` with
drop-then-add SQL joined by a newline. -/
def indexCase (g : SqlGenerator) (tbl : String) (targetIdx : List Index) (idx : Index) :
    Option (Nat → DiffItem) :=
  match lookupBy Index.name targetIdx idx.name with
  | none => some (fun n =>
      { id := Nat.repr n, diff_type := DiffType.IndexAdded, table_name := tbl,
        object_name := some idx.name, source_def := some (String.intercalate ", " idx.columns),
        target_def := none, sql := g.generate_add_index tbl idx, selected := true })
  | some target_index =>
    if idx = target_index then none
    else some (fun n =>
      { id := Nat.repr n, diff_type := DiffType.IndexModified, table_name := tbl,
        object_name := some idx.name, source_def := some (String.intercalate ", " idx.columns),
        target_def := some (String.intercalate ", " target_index.columns),
        sql := g.generate_drop_index tbl idx.name ++ "\n" ++ g.generate_add_index tbl idx,
        selected := true })

/-- Case function for the target-indexes loop of `compare_tables`
(comparator.rs lines 151-165). -/
def indexRemovedCase (g : SqlGenerator) (tbl : String) (sourceIdx : List Index) (idx : Index) :
    Option (Nat → DiffItem) :=
  if containsBy Index.name sourceIdx idx.name then none
  else some (fun n =>
    { id := Nat.repr n, diff_type := DiffType.IndexRemoved, table_name := tbl,
      object_name := some idx.name, source_def := none,
      target_def := some (String.intercalate ", " idx.columns),
      sql := g.generate_drop_index tbl idx.name, selected := true })

/-- Case function for the source-foreign-keys loop of `compare_tables`
(comparator.rs lines 171-185): the source only handles the absent case,
so a foreign key whose name is present in target yields nothing at all,
however different its content is. -/
def fkAddedCase (g : SqlGenerator) (tbl : String) (targetFks : List ForeignKey) (fk : ForeignKey) :
    Option (Nat → DiffItem) :=
  if containsBy ForeignKey.name targetFks fk.name then none
  else some (fun n =>
    { id := Nat.repr n, diff_type := DiffType.ForeignKeyAdded, table_name := tbl,
      object_name := some fk.name, source_def := some ("-> " ++ fk.ref_table),
      target_def := none, sql := g.generate_add_foreign_key tbl fk, selected := true })

/-- Case function for the target-foreign-keys loop of `compare_tables`
(comparator.rs lines 187-201). -/
def fkRemovedCase (g : SqlGenerator) (tbl : String) (sourceFks : List ForeignKey) (fk : ForeignKey) :
    Option (Nat → DiffItem) :=
  if containsBy ForeignKey.name sourceFks fk.name then none
  else some (fun n =>
    { id := Nat.repr n, diff_type := DiffType.ForeignKeyRemoved, table_name := tbl,
      object_name := some fk.name, source_def := none,
      target_def := some ("-> " ++ fk.ref_table),
      sql := g.generate_drop_foreign_key tbl fk.name, selected := true })

/-- Case function for the source-unique-constraints loop of `compare_tables`
(comparator.rs lines 207-221); like foreign keys, only the absent case is
handled. -/
def ucAddedCase (g : SqlGenerator) (tbl : String) (targetUcs : List UniqueConstraint)
    (uc : UniqueConstraint) : Option (Nat → DiffItem) :=
  if containsBy UniqueConstraint.name targetUcs uc.name then none
  else some (fun n =>
    { id := Nat.repr n, diff_type := DiffType.UniqueConstraintAdded, table_name := tbl,
      object_name := some uc.name, source_def := some (String.intercalate ", " uc.columns),
      target_def := none, sql := g.generate_add_unique tbl uc, selected := true })

/-- Case function for the target-unique-constraints loop of `compare_tables`
(comparator.rs lines 223-237). -/
def ucRemovedCase (g : SqlGenerator) (tbl : String) (sourceUcs : List UniqueConstraint)
    (uc : UniqueConstraint) : Option (Nat → DiffItem) :=
  if containsBy UniqueConstraint.name sourceUcs uc.name then none
  else some (fun n =>
    { id := Nat.repr n, diff_type := DiffType.UniqueConstraintRemoved, table_name := tbl,
      object_name := some uc.name, source_def := none,
      target_def := some (String.intercalate ", " uc.columns),
      sql := g.generate_drop_unique tbl uc.name, selected := true })

/-- From `comparator.rs::compare_tables`: the eight emission loops for one
pair of tables matched by name, in source order, threading the shared id
counter. All emitted rows carry the source table's name. -/
def compare_tables (source target : TableSchema) (g : SqlGenerator) (c0 : Nat) :
    List DiffItem × Nat :=
  let r1 := emitPass (columnCase g source.name target.columns) source.columns c0
  let r2 := emitPass (columnRemovedCase g source.name source.columns) target.columns r1.2
  let r3 := emitPass (indexCase g source.name target.indexes) source.indexes r2.2
  let r4 := emitPass (indexRemovedCase g source.name source.indexes) target.indexes r3.2
  let r5 := emitPass (fkAddedCase g source.name target.foreign_keys) source.foreign_keys r4.2
  let r6 := emitPass (fkRemovedCase g source.name source.foreign_keys) target.foreign_keys r5.2
  let r7 := emitPass (ucAddedCase g source.name target.unique_constraints) source.unique_constraints r6.2
  let r8 := emitPass (ucRemovedCase g source.name source.unique_constraints) target.unique_constraints r7.2
  (r1.1 ++ r2.1 ++ r3.1 ++ r4.1 ++ r5.1 ++ r6.1 ++ r7.1 ++ r8.1, r8.2)

/-- The matched-tables loop of `compare_schemas` (comparator.rs lines
51-55): walk the source list and compare every table whose name resolves in
the target lookup. -/
def compareMatched (g : SqlGenerator) (target : List TableSchema) :
    List TableSchema → Nat → List DiffItem × Nat
  | [], c => ([], c)
  | s :: rest, c =>
    match lookupBy TableSchema.name target s.name with
    | none => compareMatched g target rest c
    | some t =>
      let r1 := compare_tables s t g c
      let r2 := compareMatched g target rest r1.2
      (r1.1 ++ r2.1, r2.2)

/-- From `comparator.rs::compare_schemas`: added tables, then removed
tables, then the per-matched-table diffs, all sharing one id counter that
starts at 0 and is bumped before each emission. -/
def compare_schemas (source target : List TableSchema) (g : SqlGenerator) : List DiffItem :=
  let r1 := emitPass (tableAddedCase g target) source 0
  let r2 := emitPass (tableRemovedCase g source) target r1.2
  let r3 := compareMatched g target source r2.2
  r1.1 ++ r2.1 ++ r3.1

/-- Assign ids `c+1, c+2, ...` to a list of pending emissions, in order. -/
def idsFrom : Nat → List (Nat → DiffItem) → List DiffItem
  | _, [] => []
  | c, mk :: rest => mk (c + 1) :: idsFrom (c + 1) rest

/-- The pending emissions of one matched table pair, as the spec's §4.3
step 5/7 describes them: column walk over source columns (added and
modified, in source-column order), removed columns in target order, then
the same pattern for indexes, foreign keys and unique constraints. -/
def tableMks (g : SqlGenerator) (s t : TableSchema) : List (Nat → DiffItem) :=
  s.columns.filterMap (columnCase g s.name t.columns)
    ++ t.columns.filterMap (columnRemovedCase g s.name s.columns)
    ++ s.indexes.filterMap (indexCase g s.name t.indexes)
    ++ t.indexes.filterMap (indexRemovedCase g s.name s.indexes)
    ++ s.foreign_keys.filterMap (fkAddedCase g s.name t.foreign_keys)
    ++ t.foreign_keys.filterMap (fkRemovedCase g s.name s.foreign_keys)
    ++ s.unique_constraints.filterMap (ucAddedCase g s.name t.unique_constraints)
    ++ t.unique_constraints.filterMap (ucRemovedCase g s.name s.unique_constraints)

/-- The pending emissions of the matched-tables phase, one segment per
source table whose name resolves in the target lookup. -/
def matchedMks (g : SqlGenerator) (target source : List TableSchema) :
    List (Nat → DiffItem) :=
  (source.map (fun s =>
    match lookupBy TableSchema.name target s.name with
    | none => []
    | some t => tableMks g s t)).flatten

/-- All pending emissions of one comparison run, in the emission order the
spec's §4.3 step 7 states. -/
def allMks (g : SqlGenerator) (source target : List TableSchema) :
    List (Nat → DiffItem) :=
  source.filterMap (tableAddedCase g target)
    ++ target.filterMap (tableRemovedCase g source)
    ++ matchedMks g target source

/-- The uniqueness invariants the spec's §3 places on one table: column,
index, foreign-key and unique-constraint names are unique within it. -/
def WellFormedTable (t : TableSchema) : Prop :=
  (t.columns.map Column.name).Nodup ∧ (t.indexes.map Index.name).Nodup
    ∧ (t.foreign_keys.map ForeignKey.name).Nodup
    ∧ (t.unique_constraints.map UniqueConstraint.name).Nodup

/-- The uniqueness invariants the spec's §3 places on one snapshot: table
names are unique, and every table is well-formed. -/
def WellFormedSchema (s : List TableSchema) : Prop :=
  (s.map TableSchema.name).Nodup ∧ ∀ t ∈ s, WellFormedTable t

/-- Boolean test: a `TableAdded` diff for table `n`. -/
def isTableAddedFor (n : String) (d : DiffItem) : Bool :=
  decide (d.diff_type = DiffType.TableAdded ∧ d.table_name = n)

/-- Boolean test: a `TableRemoved` diff for table `n`. -/
def isTableRemovedFor (n : String) (d : DiffItem) : Bool :=
  decide (d.diff_type = DiffType.TableRemoved ∧ d.table_name = n)

/-- Boolean test: a `ColumnModified` diff for column `n`. -/
def isColumnModifiedFor (n : String) (d : DiffItem) : Bool :=
  decide (d.diff_type = DiffType.ColumnModified ∧ d.object_name = some n)

/-- Boolean test: any column-kind diff for column `n`. -/
def isColumnDiffFor (n : String) (d : DiffItem) : Bool :=
  decide ((d.diff_type = DiffType.ColumnAdded ∨ d.diff_type = DiffType.ColumnModified
    ∨ d.diff_type = DiffType.ColumnRemoved) ∧ d.object_name = some n)

/-- Boolean test: an `IndexModified` diff for index `n`. -/
def isIndexModifiedFor (n : String) (d : DiffItem) : Bool :=
  decide (d.diff_type = DiffType.IndexModified ∧ d.object_name = some n)

/-- Boolean test: any foreign-key-kind diff for constraint `n`. -/
def isForeignKeyDiffFor (n : String) (d : DiffItem) : Bool :=
  decide ((d.diff_type = DiffType.ForeignKeyAdded ∨ d.diff_type = DiffType.ForeignKeyRemoved)
    ∧ d.object_name = some n)

/-- Per-character delimiter doubling, the specification-side reading of the
quoting rule: every occurrence of the delimiter becomes two copies. -/
def doubleDelim (d : Char) (cs : List Char) : List Char :=
  cs.flatMap (fun c => if c = d then [d, d] else [c])

/-- Postgres `DEFAULT` clause fragment, for stating `generate_add_column`
shapes. -/
def pgDefaultClause : Option String → String
  | some v => " DEFAULT " ++ v
  | none => ""

/-- A plain non-nullable column with the given name, type and position. -/
def exCol (nm dt : String) (pos : Nat) : Column :=
  { name := nm, data_type := dt, nullable := false, default_value := none,
    auto_increment := false, comment := none, ordinal_position := pos }

/-- A table with only columns. -/
def exTable (nm : String) (cols : List Column) : TableSchema :=
  { name := nm, columns := cols, primary_key := none, indexes := [],
    foreign_keys := [], unique_constraints := [] }

/-- The `fk_user` foreign key of the repo's same-name-different-content
scenario, parameterised by its referenced table and column. -/
def fkUser (ref rc : String) : ForeignKey :=
  { name := "fk_user", columns := ["user_id"], ref_table := ref, ref_columns := [rc],
    on_delete := "CASCADE", on_update := "CASCADE" }

/-- Source `orders` table: `fk_user` references `users(id)`. -/
def ordersSrc : TableSchema :=
  { name := "orders", columns := [exCol "id" "INT" 1, exCol "user_id" "INT" 2],
    primary_key := none, indexes := [], foreign_keys := [fkUser "users" "id"],
    unique_constraints := [] }

/-- Target `orders` table: `fk_user` references `accounts(account_id)`. -/
def ordersTgt : TableSchema :=
  { name := "orders", columns := [exCol "id" "INT" 1, exCol "user_id" "INT" 2],
    primary_key := none, indexes := [], foreign_keys := [fkUser "accounts" "account_id"],
    unique_constraints := [] }

/-- A malformed table holding two columns that share the name `c`. -/
def dupColTable : TableSchema :=
  exTable "t" [exCol "c" "INT" 1, exCol "c" "TEXT" 1]

/-- Example table `a(x INT)`. -/
def tableA : TableSchema := exTable "a" [exCol "x" "INT" 1]

/-- A second, structurally different table also named `a`. -/
def tableA2 : TableSchema := exTable "a" [exCol "z" "INT" 1]

/-- Example table `b(y INT)`. -/
def tableB : TableSchema := exTable "b" [exCol "y" "INT" 1]

/-- Source `users` table with `email VARCHAR(255)`. -/
def usersSrc : TableSchema := exTable "users" [exCol "email" "VARCHAR(255)" 1]

/-- Target `users` table with `email VARCHAR(200)`. -/
def usersTgt : TableSchema := exTable "users" [exCol "email" "VARCHAR(200)" 1]

/-- A non-unique b-tree index on `email`. -/
def idxEmail : Index :=
  { name := "idx_email", columns := ["email"], unique := false, index_type := "BTREE" }

/-- The same index name with `unique` flipped. -/
def idxEmailUnique : Index :=
  { name := "idx_email", columns := ["email"], unique := true, index_type := "BTREE" }

/-- Source `users` table carrying `idxEmail`. -/
def usersIdxSrc : TableSchema :=
  { name := "users", columns := [exCol "email" "VARCHAR(255)" 1], primary_key := none,
    indexes := [idxEmail], foreign_keys := [], unique_constraints := [] }

/-- Target `users` table carrying `idxEmailUnique`. -/
def usersIdxTgt : TableSchema :=
  { name := "users", columns := [exCol "email" "VARCHAR(255)" 1], primary_key := none,
    indexes := [idxEmailUnique], foreign_keys := [], unique_constraints := [] }

/-- A non-nullable auto-increment column. -/
def serialCol : Column :=
  { name := "id", data_type := "INTEGER", nullable := false, default_value := none,
    auto_increment := true, comment := none, ordinal_position := 1 }

/-- A lookup hit comes from the list and carries the requested key. -/
theorem lookupBy_mem {α : Type} {key : α → String} {xs : List α} {n : String} {y : α}
    (h : lookupBy key xs n = some y) : y ∈ xs ∧ key y = n := by
  induction xs with
  | nil => simp [lookupBy] at h
  | cons x xs ih =>
    simp only [lookupBy] at h
    cases hx : lookupBy key xs n with
    | some z =>
      rw [hx] at h
      obtain rfl : z = y := by injection h
      obtain ⟨hm, hk⟩ := ih hx
      exact ⟨List.mem_cons_of_mem _ hm, hk⟩
    | none =>
      rw [hx] at h
      by_cases hxe : key x = n
      · simp only [hxe, if_pos rfl] at h
        obtain rfl : x = y := by injection h
        exact ⟨List.mem_cons_self _ _, hxe⟩
      · simp [hxe] at h

/-- The lookup misses exactly when no element carries the key. -/
theorem lookupBy_eq_none_iff {α : Type} {key : α → String} {xs : List α} {n : String} :
    lookupBy key xs n = none ↔ ∀ x ∈ xs, key x ≠ n := by
  induction xs with
  | nil => simp [lookupBy]
  | cons x xs ih =>
    simp only [lookupBy]
    cases hx : lookupBy key xs n with
    | some z =>
      obtain ⟨hm, hk⟩ := lookupBy_mem hx
      simp only [List.mem_cons]
      constructor
      · intro h; cases h
      · intro hall; exact absurd hk (hall z (Or.inr hm))
    | none =>
      have hforall := ih.mp hx
      by_cases hxe : key x = n
      · simp [hxe]
      · simp only [if_neg hxe, List.mem_cons]
        constructor
        · rintro - y (rfl | hy)
          · exact hxe
          · exact hforall y hy
        · intro _; trivial

/-- With unique keys, looking an element's own key up returns it. -/
theorem lookupBy_self {α : Type} {key : α → String} {xs : List α}
    (hnd : (xs.map key).Nodup) {x : α} (hx : x ∈ xs) : lookupBy key xs (key x) = some x := by
  induction xs with
  | nil => simp at hx
  | cons a xs ih =>
    simp only [List.map_cons, List.nodup_cons] at hnd
    obtain ⟨hna, hnd'⟩ := hnd
    rcases List.mem_cons.mp hx with rfl | hx'
    · have hnone : lookupBy key xs (key x) = none := by
        rw [lookupBy_eq_none_iff]
        intro y hy hkey
        exact hna (hkey ▸ List.mem_map_of_mem key hy)
      simp [lookupBy, hnone]
    · have := ih hnd' hx'
      simp [lookupBy, this]

/-- Key absence, phrased through `containsBy`. -/
theorem containsBy_eq_false_iff {α : Type} {key : α → String} {xs : List α} {n : String} :
    containsBy key xs n = false ↔ ∀ x ∈ xs, key x ≠ n := by
  unfold containsBy
  cases hx : lookupBy key xs n with
  | none => simpa [hx] using lookupBy_eq_none_iff.mp hx
  | some y =>
    obtain ⟨hm, hk⟩ := lookupBy_mem hx
    simp only [hx, Option.isSome_some]
    constructor
    · intro h; cases h
    · intro hall; exact absurd hk (hall y hm)

/-- A member's key is always found. -/
theorem containsBy_of_mem {α : Type} (key : α → String) {xs : List α} {x : α}
    (hx : x ∈ xs) : containsBy key xs (key x) = true := by
  cases hc : containsBy key xs (key x) with
  | true => rfl
  | false => exact absurd rfl (containsBy_eq_false_iff.mp hc x hx)

/-- One emission loop equals: filter the case function over the walked list,
then hand out consecutive ids starting after the incoming counter; the
outgoing counter grows by the number of emissions. -/
theorem emitPass_eq {α : Type} (f : α → Option (Nat → DiffItem)) (xs : List α) (c : Nat) :
    emitPass f xs c = (idsFrom c (xs.filterMap f), c + (xs.filterMap f).length) := by
  induction xs generalizing c with
  | nil => simp [emitPass, idsFrom]
  | cons x xs ih =>
    cases hx : f x with
    | none => simp [emitPass, hx, List.filterMap_cons, ih]
    | some mk =>
      simp only [emitPass, hx, List.filterMap_cons, ih (c + 1), idsFrom, List.length_cons]
      exact Prod.ext rfl (by omega)

/-- Sequential id assignment distributes over append, shifting the start. -/
theorem idsFrom_append (c : Nat) (a b : List (Nat → DiffItem)) :
    idsFrom c (a ++ b) = idsFrom c a ++ idsFrom (c + a.length) b := by
  induction a generalizing c with
  | nil => simp [idsFrom]
  | cons mk a ih =>
    have h : c + (a.length + 1) = c + 1 + a.length := by omega
    simp only [List.cons_append, idsFrom, List.length_cons, h]
    exact congrArg (mk (c + 1) :: ·) (ih (c + 1))

/-- Sequential id assignment preserves length. -/
theorem idsFrom_length (c : Nat) (mks : List (Nat → DiffItem)) :
    (idsFrom c mks).length = mks.length := by
  induction mks generalizing c with
  | nil => rfl
  | cons mk mks ih => simp [idsFrom, ih]

/-- The per-table comparison equals the spec-ordered pending emissions of
`tableMks` with consecutive ids. -/
theorem compare_tables_eq (s t : TableSchema) (g : SqlGenerator) (c : Nat) :
    compare_tables s t g c = (idsFrom c (tableMks g s t), c + (tableMks g s t).length) := by
  simp [compare_tables, emitPass_eq, tableMks, idsFrom_append, List.length_append,
    Nat.add_assoc]

/-- The matched-tables phase equals the spec-ordered pending emissions of
`matchedMks` with consecutive ids. -/
theorem compareMatched_eq (g : SqlGenerator) (target source : List TableSchema) (c : Nat) :
    compareMatched g target source c
      = (idsFrom c (matchedMks g target source), c + (matchedMks g target source).length) := by
  induction source generalizing c with
  | nil => simp [compareMatched, matchedMks, idsFrom]
  | cons s rest ih =>
    cases hx : lookupBy TableSchema.name target s.name with
    | none => simp [compareMatched, hx, matchedMks, ih]
    | some t =>
      simp [compareMatched, hx, compare_tables_eq, ih, matchedMks, List.map_cons,
        List.flatten_cons, idsFrom_append, List.length_append, Nat.add_assoc]

/-- The whole comparison run equals the spec-ordered pending emissions of
`allMks` with ids handed out from 1. -/
theorem compare_schemas_eq (source target : List TableSchema) (g : SqlGenerator) :
    compare_schemas source target g = idsFrom 0 (allMks g source target) := by
  simp [compare_schemas, emitPass_eq, compareMatched_eq, allMks, idsFrom_append,
    Nat.add_assoc]

/-- Every item an emission loop produces comes from some walked element on
which the case function fired, instantiated at some counter value. -/
theorem mem_emitPass {α : Type} {f : α → Option (Nat → DiffItem)} {xs : List α} {c : Nat}
    {d : DiffItem} (hd : d ∈ (emitPass f xs c).1) :
    ∃ x ∈ xs, ∃ mk, f x = some mk ∧ ∃ n, d = mk n := by
  induction xs generalizing c with
  | nil => simp [emitPass] at hd
  | cons x xs ih =>
    cases hfx : f x with
    | none =>
      simp only [emitPass, hfx] at hd
      obtain ⟨y, hy, mk, hmk, n, hn⟩ := ih hd
      exact ⟨y, List.mem_cons_of_mem x hy, mk, hmk, n, hn⟩
    | some mk =>
      simp only [emitPass, hfx, List.mem_cons] at hd
      rcases hd with rfl | hd
      · exact ⟨x, List.mem_cons_self x xs, mk, hfx, c + 1, rfl⟩
      · obtain ⟨y, hy, mk', hmk, n, hn⟩ := ih hd
        exact ⟨y, List.mem_cons_of_mem x hy, mk', hmk, n, hn⟩

/-- Counting over one emission loop: when the tested property of an emitted
item does not depend on the id it received, the count over the output equals
a count over the walked list. -/
theorem countP_emitPass {α : Type} (f : α → Option (Nat → DiffItem)) (p : DiffItem → Bool)
    (q : α → Bool) (xs : List α)
    (h : ∀ x ∈ xs, ∀ n : Nat,
      (match f x with | none => false | some mk => p (mk n)) = q x) (c : Nat) :
    ((emitPass f xs c).1).countP p = xs.countP q := by
  induction xs generalizing c with
  | nil => simp [emitPass]
  | cons x xs ih =>
    have hrest : ∀ y ∈ xs, ∀ n : Nat,
        (match f y with | none => false | some mk => p (mk n)) = q y :=
      fun y hy => h y (List.mem_cons_of_mem x hy)
    cases hfx : f x with
    | none =>
      have h0 := h x (List.mem_cons_self x xs) 0
      simp only [hfx] at h0
      simp [emitPass, hfx, List.countP_cons, ← h0, ih hrest c]
    | some mk =>
      have h1 := h x (List.mem_cons_self x xs) (c + 1)
      simp only [hfx] at h1
      simp [emitPass, hfx, List.countP_cons, ← h1, ih hrest (c + 1)]

/-- Shape of a fired added-table case. -/
theorem tableAddedCase_some {g : SqlGenerator} {target : List TableSchema} {t : TableSchema}
    {mk : Nat → DiffItem} (h : tableAddedCase g target t = some mk) :
    containsBy TableSchema.name target t.name = false ∧ ∀ n, mk n =
      { id := Nat.repr n, diff_type := DiffType.TableAdded, table_name := t.name,
        object_name := none, source_def := some (Nat.repr t.columns.length ++ " columns"),
        target_def := none, sql := g.generate_create_table t, selected := true } := by
  by_cases hc : containsBy TableSchema.name target t.name = true
  · simp [tableAddedCase, hc] at h
  · have hc' : containsBy TableSchema.name target t.name = false := by
      cases hcb : containsBy TableSchema.name target t.name
      · rfl
      · exact absurd hcb hc
    simp only [tableAddedCase, hc', Bool.false_eq_true, if_false, Option.some.injEq] at h
    exact ⟨hc', fun n => by rw [← h]⟩

/-- Shape of a fired removed-table case. -/
theorem tableRemovedCase_some {g : SqlGenerator} {source : List TableSchema} {t : TableSchema}
    {mk : Nat → DiffItem} (h : tableRemovedCase g source t = some mk) :
    containsBy TableSchema.name source t.name = false ∧ ∀ n, mk n =
      { id := Nat.repr n, diff_type := DiffType.TableRemoved, table_name := t.name,
        object_name := none, source_def := none,
        target_def := some (Nat.repr t.columns.length ++ " columns"),
        sql := g.generate_drop_table t.name, selected := true } := by
  by_cases hc : containsBy TableSchema.name source t.name = true
  · simp [tableRemovedCase, hc] at h
  · have hc' : containsBy TableSchema.name source t.name = false := by
      cases hcb : containsBy TableSchema.name source t.name
      · rfl
      · exact absurd hcb hc
    simp only [tableRemovedCase, hc', Bool.false_eq_true, if_false, Option.some.injEq] at h
    exact ⟨hc', fun n => by rw [← h]⟩

/-- Shape of a fired source-column case: either the added or the modified
branch. -/
theorem columnCase_some {g : SqlGenerator} {tbl : String} {targetCols : List Column}
    {col : Column} {mk : Nat → DiffItem} (h : columnCase g tbl targetCols col = some mk) :
    (lookupBy Column.name targetCols col.name = none ∧ ∀ n, mk n =
      { id := Nat.repr n, diff_type := DiffType.ColumnAdded, table_name := tbl,
        object_name := some col.name, source_def := some col.data_type, target_def := none,
        sql := g.generate_add_column tbl col, selected := true })
    ∨ (∃ target_col, lookupBy Column.name targetCols col.name = some target_col
        ∧ col ≠ target_col ∧ ∀ n, mk n =
      { id := Nat.repr n, diff_type := DiffType.ColumnModified, table_name := tbl,
        object_name := some col.name, source_def := some col.data_type,
        target_def := some target_col.data_type,
        sql := g.generate_modify_column tbl col, selected := true }) := by
  cases hl : lookupBy Column.name targetCols col.name with
  | none =>
    simp only [columnCase, hl, Option.some.injEq] at h
    exact Or.inl ⟨rfl, fun n => by rw [← h]⟩
  | some target_col =>
    by_cases he : col = target_col
    · simp only [columnCase, hl] at h
      rw [if_pos he] at h
      exact Option.noConfusion h
    · simp only [columnCase, hl, if_neg he, Option.some.injEq] at h
      exact Or.inr ⟨target_col, rfl, he, fun n => by rw [← h]⟩

/-- Shape of a fired removed-column case. -/
theorem columnRemovedCase_some {g : SqlGenerator} {tbl : String} {sourceCols : List Column}
    {col : Column} {mk : Nat → DiffItem} (h : columnRemovedCase g tbl sourceCols col = some mk) :
    containsBy Column.name sourceCols col.name = false ∧ ∀ n, mk n =
      { id := Nat.repr n, diff_type := DiffType.ColumnRemoved, table_name := tbl,
        object_name := some col.name, source_def := none, target_def := some col.data_type,
        sql := g.generate_drop_column tbl col.name, selected := true } := by
  by_cases hc : containsBy Column.name sourceCols col.name = true
  · simp [columnRemovedCase, hc] at h
  · have hc' : containsBy Column.name sourceCols col.name = false := by
      cases hcb : containsBy Column.name sourceCols col.name
      · rfl
      · exact absurd hcb hc
    simp only [columnRemovedCase, hc', Bool.false_eq_true, if_false, Option.some.injEq] at h
    exact ⟨hc', fun n => by rw [← h]⟩

/-- Shape of a fired source-index case: either the added or the modified
branch. -/
theorem indexCase_some {g : SqlGenerator} {tbl : String} {targetIdx : List Index}
    {idx : Index} {mk : Nat → DiffItem} (h : indexCase g tbl targetIdx idx = some mk) :
    (lookupBy Index.name targetIdx idx.name = none ∧ ∀ n, mk n =
      { id := Nat.repr n, diff_type := DiffType.IndexAdded, table_name := tbl,
        object_name := some idx.name, source_def := some (String.intercalate ", " idx.columns),
        target_def := none, sql := g.generate_add_index tbl idx, selected := true })
    ∨ (∃ target_index, lookupBy Index.name targetIdx idx.name = some target_index
        ∧ idx ≠ target_index ∧ ∀ n, mk n =
      { id := Nat.repr n, diff_type := DiffType.IndexModified, table_name := tbl,
        object_name := some idx.name, source_def := some (String.intercalate ", " idx.columns),
        target_def := some (String.intercalate ", " target_index.columns),
        sql := g.generate_drop_index tbl idx.name ++ "\n" ++ g.generate_add_index tbl idx,
        selected := true }) := by
  cases hl : lookupBy Index.name targetIdx idx.name with
  | none =>
    simp only [indexCase, hl, Option.some.injEq] at h
    exact Or.inl ⟨rfl, fun n => by rw [← h]⟩
  | some target_index =>
    by_cases he : idx = target_index
    · simp only [indexCase, hl] at h
      rw [if_pos he] at h
      exact Option.noConfusion h
    · simp only [indexCase, hl, if_neg he, Option.some.injEq] at h
      exact Or.inr ⟨target_index, rfl, he, fun n => by rw [← h]⟩

/-- Shape of a fired removed-index case. -/
theorem indexRemovedCase_some {g : SqlGenerator} {tbl : String} {sourceIdx : List Index}
    {idx : Index} {mk : Nat → DiffItem} (h : indexRemovedCase g tbl sourceIdx idx = some mk) :
    containsBy Index.name sourceIdx idx.name = false ∧ ∀ n, mk n =
      { id := Nat.repr n, diff_type := DiffType.IndexRemoved, table_name := tbl,
        object_name := some idx.name, source_def := none,
        target_def := some (String.intercalate ", " idx.columns),
        sql := g.generate_drop_index tbl idx.name, selected := true } := by
  by_cases hc : containsBy Index.name sourceIdx idx.name = true
  · simp [indexRemovedCase, hc] at h
  · have hc' : containsBy Index.name sourceIdx idx.name = false := by
      cases hcb : containsBy Index.name sourceIdx idx.name
      · rfl
      · exact absurd hcb hc
    simp only [indexRemovedCase, hc', Bool.false_eq_true, if_false, Option.some.injEq] at h
    exact ⟨hc', fun n => by rw [← h]⟩

/-- Shape of a fired added-foreign-key case; there is no modified branch. -/
theorem fkAddedCase_some {g : SqlGenerator} {tbl : String} {targetFks : List ForeignKey}
    {fk : ForeignKey} {mk : Nat → DiffItem} (h : fkAddedCase g tbl targetFks fk = some mk) :
    containsBy ForeignKey.name targetFks fk.name = false ∧ ∀ n, mk n =
      { id := Nat.repr n, diff_type := DiffType.ForeignKeyAdded, table_name := tbl,
        object_name := some fk.name, source_def := some ("-> " ++ fk.ref_table),
        target_def := none, sql := g.generate_add_foreign_key tbl fk, selected := true } := by
  by_cases hc : containsBy ForeignKey.name targetFks fk.name = true
  · simp [fkAddedCase, hc] at h
  · have hc' : containsBy ForeignKey.name targetFks fk.name = false := by
      cases hcb : containsBy ForeignKey.name targetFks fk.name
      · rfl
      · exact absurd hcb hc
    simp only [fkAddedCase, hc', Bool.false_eq_true, if_false, Option.some.injEq] at h
    exact ⟨hc', fun n => by rw [← h]⟩

/-- Shape of a fired removed-foreign-key case. -/
theorem fkRemovedCase_some {g : SqlGenerator} {tbl : String} {sourceFks : List ForeignKey}
    {fk : ForeignKey} {mk : Nat → DiffItem} (h : fkRemovedCase g tbl sourceFks fk = some mk) :
    containsBy ForeignKey.name sourceFks fk.name = false ∧ ∀ n, mk n =
      { id := Nat.repr n, diff_type := DiffType.ForeignKeyRemoved, table_name := tbl,
        object_name := some fk.name, source_def := none,
        target_def := some ("-> " ++ fk.ref_table),
        sql := g.generate_drop_foreign_key tbl fk.name, selected := true } := by
  by_cases hc : containsBy ForeignKey.name sourceFks fk.name = true
  · simp [fkRemovedCase, hc] at h
  · have hc' : containsBy ForeignKey.name sourceFks fk.name = false := by
      cases hcb : containsBy ForeignKey.name sourceFks fk.name
      · rfl
      · exact absurd hcb hc
    simp only [fkRemovedCase, hc', Bool.false_eq_true, if_false, Option.some.injEq] at h
    exact ⟨hc', fun n => by rw [← h]⟩

/-- Shape of a fired added-unique-constraint case; there is no modified
branch. -/
theorem ucAddedCase_some {g : SqlGenerator} {tbl : String}
    {targetUcs : List UniqueConstraint} {uc : UniqueConstraint} {mk : Nat → DiffItem}
    (h : ucAddedCase g tbl targetUcs uc = some mk) :
    containsBy UniqueConstraint.name targetUcs uc.name = false ∧ ∀ n, mk n =
      { id := Nat.repr n, diff_type := DiffType.UniqueConstraintAdded, table_name := tbl,
        object_name := some uc.name, source_def := some (String.intercalate ", " uc.columns),
        target_def := none, sql := g.generate_add_unique tbl uc, selected := true } := by
  by_cases hc : containsBy UniqueConstraint.name targetUcs uc.name = true
  · simp [ucAddedCase, hc] at h
  · have hc' : containsBy UniqueConstraint.name targetUcs uc.name = false := by
      cases hcb : containsBy UniqueConstraint.name targetUcs uc.name
      · rfl
      · exact absurd hcb hc
    simp only [ucAddedCase, hc', Bool.false_eq_true, if_false, Option.some.injEq] at h
    exact ⟨hc', fun n => by rw [← h]⟩

/-- Shape of a fired removed-unique-constraint case. -/
theorem ucRemovedCase_some {g : SqlGenerator} {tbl : String}
    {sourceUcs : List UniqueConstraint} {uc : UniqueConstraint} {mk : Nat → DiffItem}
    (h : ucRemovedCase g tbl sourceUcs uc = some mk) :
    containsBy UniqueConstraint.name sourceUcs uc.name = false ∧ ∀ n, mk n =
      { id := Nat.repr n, diff_type := DiffType.UniqueConstraintRemoved, table_name := tbl,
        object_name := some uc.name, source_def := none,
        target_def := some (String.intercalate ", " uc.columns),
        sql := g.generate_drop_unique tbl uc.name, selected := true } := by
  by_cases hc : containsBy UniqueConstraint.name sourceUcs uc.name = true
  · simp [ucRemovedCase, hc] at h
  · have hc' : containsBy UniqueConstraint.name sourceUcs uc.name = false := by
      cases hcb : containsBy UniqueConstraint.name sourceUcs uc.name
      · rfl
      · exact absurd hcb hc
    simp only [ucRemovedCase, hc', Bool.false_eq_true, if_false, Option.some.injEq] at h
    exact ⟨hc', fun n => by rw [← h]⟩

/-- An emission loop every item of which fails the tested property counts
zero. -/
theorem countP_emitPass_zero {α : Type} (f : α → Option (Nat → DiffItem)) (p : DiffItem → Bool)
    (xs : List α) (c : Nat)
    (h : ∀ x ∈ xs, ∀ mk, f x = some mk → ∀ n, p (mk n) = false) :
    ((emitPass f xs c).1).countP p = 0 := by
  rw [countP_emitPass f p (fun _ => false) xs ?_ c]
  · simp
  · intro x hx n
    cases hfx : f x with
    | none => rfl
    | some mk => exact h x hx mk hfx n

/-- With unique keys, exactly one list element carries a member's key. -/
theorem countP_key_eq_one {α : Type} (key : α → String) {xs : List α} {x : α}
    (hnd : (xs.map key).Nodup) (hx : x ∈ xs) :
    xs.countP (fun y => decide (key y = key x)) = 1 := by
  induction xs with
  | nil => simp at hx
  | cons a xs ih =>
    simp only [List.map_cons, List.nodup_cons] at hnd
    obtain ⟨hna, hnd'⟩ := hnd
    rcases List.mem_cons.mp hx with rfl | hx'
    · have h0 : xs.countP (fun y => decide (key y = key x)) = 0 := by
        rw [List.countP_eq_zero]
        intro y hy
        simp only [decide_eq_true_eq]
        intro hk
        exact hna (hk ▸ List.mem_map_of_mem key hy)
      simp [List.countP_cons, h0]
    · have h1 := ih hnd' hx'
      have hne : key a ≠ key x := by
        intro hk
        exact hna (hk ▸ List.mem_map_of_mem key hx')
      simp [List.countP_cons, h1, hne]

/-- Every item of an id-assigned emission list is some pending emission
instantiated at some counter value. -/
theorem mem_idsFrom {c : Nat} {mks : List (Nat → DiffItem)} {d : DiffItem}
    (hd : d ∈ idsFrom c mks) : ∃ mk ∈ mks, ∃ n, d = mk n := by
  induction mks generalizing c with
  | nil => simp [idsFrom] at hd
  | cons mk mks ih =>
    simp only [idsFrom, List.mem_cons] at hd
    rcases hd with rfl | hd
    · exact ⟨mk, List.mem_cons_self mk mks, c + 1, rfl⟩
    · obtain ⟨mk', hm, n, hn⟩ := ih hd
      exact ⟨mk', List.mem_cons_of_mem mk hm, n, hn⟩

/-- When every pending emission stamps its argument as its id, the
id-assigned list carries exactly the consecutive decimal ids. -/
theorem idsFrom_map_id (mks : List (Nat → DiffItem)) :
    ∀ c : Nat, (∀ mk ∈ mks, ∀ n, (mk n).id = Nat.repr n) →
    (idsFrom c mks).map DiffItem.id = (List.range' (c + 1) mks.length).map Nat.repr := by
  induction mks with
  | nil => intro c _; simp [idsFrom]
  | cons mk mks ih =>
    intro c h
    have hhead := h mk (List.mem_cons_self mk mks) (c + 1)
    have hrest : ∀ mk' ∈ mks, ∀ n, (mk' n).id = Nat.repr n :=
      fun mk' hm => h mk' (List.mem_cons_of_mem mk hm)
    simp only [idsFrom, List.map_cons, List.length_cons, List.range'_succ, hhead]
    exact congrArg (List.cons (Nat.repr (c + 1))) (ih (c + 1) hrest)

/-- When every pending emission is marked selected, so is every item of the
id-assigned list. -/
theorem idsFrom_selected {mks : List (Nat → DiffItem)} {c : Nat}
    (h : ∀ mk ∈ mks, ∀ n, (mk n).selected = true) :
    ∀ d ∈ idsFrom c mks, d.selected = true := by
  intro d hd
  obtain ⟨mk, hm, n, rfl⟩ := mem_idsFrom hd
  exact h mk hm n

/-- Every pending emission of one matched table stamps id and selection,
names the source table, and is never a table-level diff. -/
theorem tableMks_facts {g : SqlGenerator} {s t : TableSchema} {mk : Nat → DiffItem}
    (hmk : mk ∈ tableMks g s t) (n : Nat) :
    (mk n).id = Nat.repr n ∧ (mk n).selected = true ∧ (mk n).table_name = s.name
      ∧ (mk n).diff_type ≠ DiffType.TableAdded ∧ (mk n).diff_type ≠ DiffType.TableRemoved := by
  simp only [tableMks, List.mem_append, List.mem_filterMap] at hmk
  rcases hmk with (((((((⟨x, -, hf⟩ | ⟨x, -, hf⟩) | ⟨x, -, hf⟩) | ⟨x, -, hf⟩)
    | ⟨x, -, hf⟩) | ⟨x, -, hf⟩) | ⟨x, -, hf⟩) | ⟨x, -, hf⟩)
  · rcases columnCase_some hf with ⟨-, hs⟩ | ⟨tc, -, -, hs⟩ <;> rw [hs n] <;> simp
  · obtain ⟨-, hs⟩ := columnRemovedCase_some hf
    rw [hs n]; simp
  · rcases indexCase_some hf with ⟨-, hs⟩ | ⟨ti, -, -, hs⟩ <;> rw [hs n] <;> simp
  · obtain ⟨-, hs⟩ := indexRemovedCase_some hf
    rw [hs n]; simp
  · obtain ⟨-, hs⟩ := fkAddedCase_some hf
    rw [hs n]; simp
  · obtain ⟨-, hs⟩ := fkRemovedCase_some hf
    rw [hs n]; simp
  · obtain ⟨-, hs⟩ := ucAddedCase_some hf
    rw [hs n]; simp
  · obtain ⟨-, hs⟩ := ucRemovedCase_some hf
    rw [hs n]; simp

/-- Every pending emission of a whole run stamps its argument as its id and
is marked selected. -/
theorem allMks_good {g : SqlGenerator} {source target : List TableSchema}
    {mk : Nat → DiffItem} (hmk : mk ∈ allMks g source target) (n : Nat) :
    (mk n).id = Nat.repr n ∧ (mk n).selected = true := by
  simp only [allMks, List.mem_append, List.mem_filterMap] at hmk
  rcases hmk with (⟨x, -, hf⟩ | ⟨x, -, hf⟩) | hm
  · obtain ⟨-, hs⟩ := tableAddedCase_some hf
    rw [hs n]; simp
  · obtain ⟨-, hs⟩ := tableRemovedCase_some hf
    rw [hs n]; simp
  · simp only [matchedMks, List.mem_flatten, List.mem_map] at hm
    obtain ⟨seg, ⟨s, _, hseg⟩, hmkseg⟩ := hm
    cases hl : lookupBy TableSchema.name target s.name with
    | none => rw [hl] at hseg; subst hseg; simp at hmkseg
    | some t =>
      rw [hl] at hseg; subst hseg
      obtain ⟨h1, h2, -⟩ := tableMks_facts hmkseg n
      exact ⟨h1, h2⟩

/-- Every pending emission of the matched-tables phase belongs to the
per-table emissions of some source table resolved in the target lookup. -/
theorem mem_matchedMks {g : SqlGenerator} {target source : List TableSchema}
    {mk : Nat → DiffItem} (hm : mk ∈ matchedMks g target source) :
    ∃ s ∈ source, ∃ t, lookupBy TableSchema.name target s.name = some t
      ∧ mk ∈ tableMks g s t := by
  simp only [matchedMks, List.mem_flatten, List.mem_map] at hm
  obtain ⟨seg, ⟨s, hs, hseg⟩, hmk⟩ := hm
  cases hl : lookupBy TableSchema.name target s.name with
  | none => rw [hl] at hseg; subst hseg; simp at hmk
  | some t => rw [hl] at hseg; subst hseg; exact ⟨s, hs, t, hl, hmk⟩

/-- A property false on every per-table emission counts zero over the
matched-tables phase. -/
theorem compareMatched_countP_zero (p : DiffItem → Bool) (g : SqlGenerator)
    (target source : List TableSchema) (c : Nat)
    (h : ∀ s t (mk : Nat → DiffItem), mk ∈ tableMks g s t → ∀ n, p (mk n) = false) :
    ((compareMatched g target source c).1).countP p = 0 := by
  rw [compareMatched_eq]
  rw [List.countP_eq_zero]
  intro d hd
  obtain ⟨mk, hm, n, rfl⟩ := mem_idsFrom hd
  obtain ⟨s, -, t, -, hmk⟩ := mem_matchedMks hm
  simp [h s t mk hmk n]

/-- Replacing a character by two copies of itself is delimiter doubling. -/
theorem replaceCharList_double (pat : Char) (cs : List Char) :
    replaceCharList pat [pat, pat] cs = doubleDelim pat cs := by
  induction cs with
  | nil => rfl
  | cons c cs ih =>
    by_cases h : c = pat <;>
      simp [replaceCharList, doubleDelim, List.flatMap_cons, h, ih]

/-- C1 (evaluation at the failing input): with `orders` present on both
sides and `fk_user` present under the same name on both sides but
referencing `users(id)` in source and `accounts(account_id)` in target,
`compare_schemas` emits no diff at all — the comparator has no
`ForeignKeyModified` branch (nor does `DiffType` carry such a variant), so
matched same-named foreign keys are never compared structurally, while the
repository's own test expects exactly one `ForeignKeyModified` diff here. -/
theorem c1_fk_modified_code_eval :
    compare_schemas [ordersSrc] [ordersTgt] mysqlGen = [] := by
  decide

/-- C2 (counterexample): the claim quantifies over every schema list, but
on a malformed snapshot whose single table holds two columns named `c` with
different types, comparing the snapshot against itself is not empty: the
name-keyed lookup lets the later duplicate shadow the earlier one, so the
first `c` is compared against the second and yields a `ColumnModified`. -/
theorem c2_identical_counterexample :
    compare_schemas [dupColTable] [dupColTable] mysqlGen ≠ [] := by
  decide

/-- C2 (amended): for snapshots satisfying the spec's §3 uniqueness
invariants (unique table names, and unique column/index/foreign-key/
unique-constraint names within each table), comparing two structurally
identical snapshots yields the empty diff list, for any dialect
generator. -/
theorem c2_identical_schemas (S : List TableSchema) (g : SqlGenerator)
    (h : WellFormedSchema S) : compare_schemas S S g = [] := by
  obtain ⟨hnames, htables⟩ := h
  rw [compare_schemas_eq]
  have hadd : S.filterMap (tableAddedCase g S) = [] := by
    rw [List.filterMap_eq_nil_iff]
    intro t ht
    simp [tableAddedCase, containsBy_of_mem TableSchema.name ht]
  have hrem : S.filterMap (tableRemovedCase g S) = [] := by
    rw [List.filterMap_eq_nil_iff]
    intro t ht
    simp [tableRemovedCase, containsBy_of_mem TableSchema.name ht]
  have hmatched : matchedMks g S S = [] := by
    simp only [matchedMks, List.flatten_eq_nil_iff, List.mem_map]
    rintro seg ⟨s, hs, hseg⟩
    obtain ⟨hcols, hidx, hfks, hucs⟩ := htables s hs
    rw [lookupBy_self hnames hs] at hseg
    subst hseg
    have e1 : s.columns.filterMap (columnCase g s.name s.columns) = [] := by
      rw [List.filterMap_eq_nil_iff]
      intro col hcol
      simp [columnCase, lookupBy_self hcols hcol]
    have e2 : s.columns.filterMap (columnRemovedCase g s.name s.columns) = [] := by
      rw [List.filterMap_eq_nil_iff]
      intro col hcol
      simp [columnRemovedCase, containsBy_of_mem Column.name hcol]
    have e3 : s.indexes.filterMap (indexCase g s.name s.indexes) = [] := by
      rw [List.filterMap_eq_nil_iff]
      intro idx hidx'
      simp [indexCase, lookupBy_self hidx hidx']
    have e4 : s.indexes.filterMap (indexRemovedCase g s.name s.indexes) = [] := by
      rw [List.filterMap_eq_nil_iff]
      intro idx hidx'
      simp [indexRemovedCase, containsBy_of_mem Index.name hidx']
    have e5 : s.foreign_keys.filterMap (fkAddedCase g s.name s.foreign_keys) = [] := by
      rw [List.filterMap_eq_nil_iff]
      intro fk hfk
      simp [fkAddedCase, containsBy_of_mem ForeignKey.name hfk]
    have e6 : s.foreign_keys.filterMap (fkRemovedCase g s.name s.foreign_keys) = [] := by
      rw [List.filterMap_eq_nil_iff]
      intro fk hfk
      simp [fkRemovedCase, containsBy_of_mem ForeignKey.name hfk]
    have e7 : s.unique_constraints.filterMap (ucAddedCase g s.name s.unique_constraints) = [] := by
      rw [List.filterMap_eq_nil_iff]
      intro uc huc
      simp [ucAddedCase, containsBy_of_mem UniqueConstraint.name huc]
    have e8 : s.unique_constraints.filterMap (ucRemovedCase g s.name s.unique_constraints) = [] := by
      rw [List.filterMap_eq_nil_iff]
      intro uc huc
      simp [ucRemovedCase, containsBy_of_mem UniqueConstraint.name huc]
    simp [tableMks, e1, e2, e3, e4, e5, e6, e7, e8]
  simp [allMks, hadd, hrem, hmatched, idsFrom]

/-- C2 witness: a concrete well-formed snapshot compared against itself. -/
theorem c2_identical_schemas_witness :
    WellFormedSchema [tableA] ∧ compare_schemas [tableA] [tableA] mysqlGen = [] :=
  ⟨by unfold WellFormedSchema WellFormedTable; decide,
   c2_identical_schemas [tableA] mysqlGen (by unfold WellFormedSchema WellFormedTable; decide)⟩

/-- C3: the diff list of a whole run is, in order: the `TableAdded` diffs
walked in source-list order, then the `TableRemoved` diffs walked in
target-list order, then for each matched table in source-list order its
column diffs (the source-column walk emitting added and modified diffs, so
each of those two sub-sequences is in source-column order, then removed
columns in target-column order), then its index diffs (added/modified in
source order, removed in target order), then its foreign-key diffs (added
in source order, removed in target order), then its unique-constraint
diffs (added in source order, removed in target order); ids are assigned
sequentially across the whole run. -/
theorem c3_emission_order (source target : List TableSchema) (g : SqlGenerator) :
    compare_schemas source target g = idsFrom 0
      (source.filterMap (tableAddedCase g target)
        ++ target.filterMap (tableRemovedCase g source)
        ++ (source.map (fun s =>
              match lookupBy TableSchema.name target s.name with
              | none => []
              | some t =>
                s.columns.filterMap (columnCase g s.name t.columns)
                  ++ t.columns.filterMap (columnRemovedCase g s.name s.columns)
                  ++ s.indexes.filterMap (indexCase g s.name t.indexes)
                  ++ t.indexes.filterMap (indexRemovedCase g s.name s.indexes)
                  ++ s.foreign_keys.filterMap (fkAddedCase g s.name t.foreign_keys)
                  ++ t.foreign_keys.filterMap (fkRemovedCase g s.name s.foreign_keys)
                  ++ s.unique_constraints.filterMap (ucAddedCase g s.name t.unique_constraints)
                  ++ t.unique_constraints.filterMap
                      (ucRemovedCase g s.name s.unique_constraints))).flatten) := by
  simpa only [allMks, matchedMks, tableMks] using compare_schemas_eq source target g

/-- C7: the ids of the emitted diffs are exactly the decimal strings of
`1, 2, ..., n` in list order, assigned across the entire run, and every
emitted item is selected. -/
theorem c7_sequential_ids (source target : List TableSchema) (g : SqlGenerator) :
    (compare_schemas source target g).map DiffItem.id
      = (List.range' 1 (compare_schemas source target g).length).map Nat.repr
    ∧ ∀ d ∈ compare_schemas source target g, d.selected = true := by
  constructor
  · rw [compare_schemas_eq, idsFrom_length]
    exact idsFrom_map_id _ 0 (fun mk hm n => (allMks_good hm n).1)
  · rw [compare_schemas_eq]
    exact idsFrom_selected (fun mk hm n => (allMks_good hm n).2)

/-- Counting added-table diffs for one table name over the added-tables
loop equals counting that name over the source list, provided no target
table carries it. -/
theorem addedPass_countP (g : SqlGenerator) (source target : List TableSchema) (X : String)
    (h : containsBy TableSchema.name target X = false) (c : Nat) :
    ((emitPass (tableAddedCase g target) source c).1).countP (isTableAddedFor X)
      = source.countP (fun y => decide (y.name = X)) := by
  apply countP_emitPass
  intro x hx n
  by_cases hxn : x.name = X
  · have hcf : containsBy TableSchema.name target x.name = false := by rw [hxn]; exact h
    simp only [tableAddedCase, hcf, Bool.false_eq_true, if_false]
    simp [isTableAddedFor, hxn]
  · cases hfx : tableAddedCase g target x with
    | none => simp [hxn]
    | some mk =>
      obtain ⟨-, hs⟩ := tableAddedCase_some hfx
      show isTableAddedFor X (mk n) = decide (x.name = X)
      rw [hs n]
      simp [isTableAddedFor, hxn]

/-- Counting removed-table diffs for one table name over the removed-tables
loop equals counting that name over the target list, provided no source
table carries it. -/
theorem removedPass_countP (g : SqlGenerator) (source target : List TableSchema) (X : String)
    (h : containsBy TableSchema.name source X = false) (c : Nat) :
    ((emitPass (tableRemovedCase g source) target c).1).countP (isTableRemovedFor X)
      = target.countP (fun y => decide (y.name = X)) := by
  apply countP_emitPass
  intro x hx n
  by_cases hxn : x.name = X
  · have hcf : containsBy TableSchema.name source x.name = false := by rw [hxn]; exact h
    simp only [tableRemovedCase, hcf, Bool.false_eq_true, if_false]
    simp [isTableRemovedFor, hxn]
  · cases hfx : tableRemovedCase g source x with
    | none => simp [hxn]
    | some mk =>
      obtain ⟨-, hs⟩ := tableRemovedCase_some hfx
      show isTableRemovedFor X (mk n) = decide (x.name = X)
      rw [hs n]
      simp [isTableRemovedFor, hxn]

/-- The added-tables loop emits no removed-table diff. -/
theorem addedPass_countP_removed_zero (g : SqlGenerator) (source target : List TableSchema)
    (X : String) (c : Nat) :
    ((emitPass (tableAddedCase g target) source c).1).countP (isTableRemovedFor X) = 0 := by
  apply countP_emitPass_zero
  intro x _ mk hfx n
  obtain ⟨-, hs⟩ := tableAddedCase_some hfx
  rw [hs n]
  rfl

/-- The removed-tables loop emits no added-table diff. -/
theorem removedPass_countP_added_zero (g : SqlGenerator) (source target : List TableSchema)
    (X : String) (c : Nat) :
    ((emitPass (tableRemovedCase g source) target c).1).countP (isTableAddedFor X) = 0 := by
  apply countP_emitPass_zero
  intro x _ mk hfx n
  obtain ⟨-, hs⟩ := tableRemovedCase_some hfx
  rw [hs n]
  rfl

/-- The matched-tables phase emits no added-table diff. -/
theorem matched_countP_added_zero (g : SqlGenerator) (target source : List TableSchema)
    (X : String) (c : Nat) :
    ((compareMatched g target source c).1).countP (isTableAddedFor X) = 0 := by
  apply compareMatched_countP_zero
  intro s t mk hmk n
  have hfact := (tableMks_facts hmk n).2.2.2.1
  simp only [isTableAddedFor, decide_eq_false_iff_not]
  rintro ⟨hA, -⟩
  exact hfact hA

/-- The matched-tables phase emits no removed-table diff. -/
theorem matched_countP_removed_zero (g : SqlGenerator) (target source : List TableSchema)
    (X : String) (c : Nat) :
    ((compareMatched g target source c).1).countP (isTableRemovedFor X) = 0 := by
  apply compareMatched_countP_zero
  intro s t mk hmk n
  have hfact := (tableMks_facts hmk n).2.2.2.2
  simp only [isTableRemovedFor, decide_eq_false_iff_not]
  rintro ⟨hA, -⟩
  exact hfact hA

/-- Every item of a whole run comes from one of the three phases' pending
emissions, instantiated at some counter value. -/
theorem mem_compare_schemas {source target : List TableSchema} {g : SqlGenerator}
    {d : DiffItem} (hd : d ∈ compare_schemas source target g) :
    ∃ mk, ∃ n : Nat, d = mk n ∧ (mk ∈ source.filterMap (tableAddedCase g target)
      ∨ mk ∈ target.filterMap (tableRemovedCase g source)
      ∨ mk ∈ matchedMks g target source) := by
  rw [compare_schemas_eq] at hd
  obtain ⟨mk, hm, n, rfl⟩ := mem_idsFrom hd
  refine ⟨mk, n, rfl, ?_⟩
  simpa [allMks, List.mem_append, or_assoc] using hm

/-- Every item of one matched-pair comparison is some per-table pending
emission instantiated at some counter value. -/
theorem mem_compare_tables {s t : TableSchema} {g : SqlGenerator} {c : Nat} {d : DiffItem}
    (hd : d ∈ (compare_tables s t g c).1) :
    ∃ mk ∈ tableMks g s t, ∃ n, d = mk n := by
  rw [compare_tables_eq] at hd
  exact mem_idsFrom hd

/-- Strings with equal character lists are equal. -/
theorem string_data_ext {a b : String} (h : a.data = b.data) : a = b := by
  cases a; cases b; exact congrArg String.mk h

/-- C8: both dialects' `quote_identifier` wrap the name in the dialect's
delimiter (backtick for MySQL, double quote for Postgres) after doubling
every embedded occurrence of that delimiter; concretely, the double-quote
dialect turns `a"b` into `"a""b"`. -/
theorem c8_quote_identifier (name : String) :
    MySqlDriver.quote_identifier name
        = ⟨backquoteChar :: (doubleDelim backquoteChar name.data ++ [backquoteChar])⟩
    ∧ PostgresDriver.quote_identifier name
        = ⟨dquoteChar :: (doubleDelim dquoteChar name.data ++ [dquoteChar])⟩
    ∧ PostgresDriver.quote_identifier "a\"b" = "\"a\"\"b\"" := by
  refine ⟨?_, ?_, by decide⟩
  · apply string_data_ext
    show ("`" ++ replaceChar name backquoteChar "``" ++ "`").data = _
    rw [String.data_append, String.data_append,
      (by decide : ("`" : String).data = [backquoteChar])]
    show [backquoteChar] ++ replaceCharList backquoteChar ("``" : String).data name.data
        ++ [backquoteChar] = _
    rw [(by decide : ("``" : String).data = [backquoteChar, backquoteChar]),
      replaceCharList_double]
    rfl
  · apply string_data_ext
    show ("\"" ++ replaceChar name dquoteChar "\"\"" ++ "\"").data = _
    rw [String.data_append, String.data_append,
      (by decide : ("\"" : String).data = [dquoteChar])]
    show [dquoteChar] ++ replaceCharList dquoteChar ("\"\"" : String).data name.data
        ++ [dquoteChar] = _
    rw [(by decide : ("\"\"" : String).data = [dquoteChar, dquoteChar]),
      replaceCharList_double]
    rfl

/-- C9: the Postgres (serial-type) dialect's `generate_add_column` replaces
the stored type with `SERIAL` for a non-nullable auto-increment column and
emits no `NOT NULL` clause for it, while a non-nullable column without
auto-increment does get `NOT NULL`. -/
theorem c9_pg_add_column (tbl : String) (col : Column) :
    (col.auto_increment = true → col.nullable = false →
      PostgresDriver.generate_add_column tbl col
        = "ALTER TABLE " ++ PostgresDriver.quote_identifier tbl ++ " ADD COLUMN "
          ++ PostgresDriver.quote_identifier col.name ++ " " ++ "SERIAL"
          ++ pgDefaultClause col.default_value ++ ";")
    ∧ (col.auto_increment = false → col.nullable = false →
      PostgresDriver.generate_add_column tbl col
        = "ALTER TABLE " ++ PostgresDriver.quote_identifier tbl ++ " ADD COLUMN "
          ++ PostgresDriver.quote_identifier col.name ++ " " ++ col.data_type
          ++ " NOT NULL" ++ pgDefaultClause col.default_value ++ ";") := by
  constructor <;> intro ha hn <;> cases hd : col.default_value <;>
    simp [PostgresDriver.generate_add_column, pgDefaultClause, ha, hn, hd,
      String.append_assoc] <;> try rfl

/-- C9 witness: adding a non-nullable auto-increment `id` column and a
non-nullable plain `email` column. -/
theorem c9_pg_add_column_witness :
    (serialCol.auto_increment = true ∧ serialCol.nullable = false
      ∧ PostgresDriver.generate_add_column "users" serialCol
          = "ALTER TABLE \"users\" ADD COLUMN \"id\" SERIAL;")
    ∧ ((exCol "email" "TEXT" 1).auto_increment = false
      ∧ (exCol "email" "TEXT" 1).nullable = false
      ∧ PostgresDriver.generate_add_column "users" (exCol "email" "TEXT" 1)
          = "ALTER TABLE \"users\" ADD COLUMN \"email\" TEXT NOT NULL;") :=
  ⟨⟨rfl, rfl, by rw [(c9_pg_add_column "users" serialCol).1 rfl rfl]; decide⟩,
   ⟨rfl, rfl, by rw [(c9_pg_add_column "users" (exCol "email" "TEXT" 1)).2 rfl rfl]; decide⟩⟩

/-- C5: under the spec's unique-table-name invariant, a table present in
source whose name no target table carries produces exactly one `TableAdded`
diff, whose SQL is `generate_create_table` of that table; symmetrically, a
table present only in target produces exactly one `TableRemoved` diff whose
SQL is `generate_drop_table` of its name. -/
theorem c5_table_added_removed (source target : List TableSchema) (g : SqlGenerator) :
    ((source.map TableSchema.name).Nodup →
      ∀ t ∈ source, containsBy TableSchema.name target t.name = false →
        (compare_schemas source target g).countP (isTableAddedFor t.name) = 1
        ∧ ∀ d ∈ compare_schemas source target g,
            isTableAddedFor t.name d = true → d.sql = g.generate_create_table t)
    ∧ ((target.map TableSchema.name).Nodup →
      ∀ t ∈ target, containsBy TableSchema.name source t.name = false →
        (compare_schemas source target g).countP (isTableRemovedFor t.name) = 1
        ∧ ∀ d ∈ compare_schemas source target g,
            isTableRemovedFor t.name d = true → d.sql = g.generate_drop_table t.name) := by
  constructor
  · intro hnd t ht hct
    constructor
    · simp only [compare_schemas]
      rw [List.countP_append, List.countP_append, addedPass_countP g source target t.name hct,
        removedPass_countP_added_zero, matched_countP_added_zero]
      rw [countP_key_eq_one TableSchema.name hnd ht]
    · intro d hd hp
      obtain ⟨mk, n, rfl, hcase⟩ := mem_compare_schemas hd
      rcases hcase with hm | hm | hm
      · obtain ⟨x, hx, hfx⟩ := List.mem_filterMap.mp hm
        obtain ⟨-, hs⟩ := tableAddedCase_some hfx
        rw [hs n] at hp ⊢
        simp only [isTableAddedFor, decide_eq_true_eq] at hp
        have hxeq : x = t := List.inj_on_of_nodup_map hnd hx ht hp.2
        simp [hxeq]
      · obtain ⟨x, hx, hfx⟩ := List.mem_filterMap.mp hm
        obtain ⟨-, hs⟩ := tableRemovedCase_some hfx
        rw [hs n] at hp
        simp [isTableAddedFor] at hp
      · obtain ⟨s, -, t', -, hmk⟩ := mem_matchedMks hm
        have hfact := (tableMks_facts hmk n).2.2.2.1
        simp only [isTableAddedFor, decide_eq_true_eq] at hp
        exact absurd hp.1 hfact
  · intro hnd t ht hct
    constructor
    · simp only [compare_schemas]
      rw [List.countP_append, List.countP_append, addedPass_countP_removed_zero,
        removedPass_countP g source target t.name hct, matched_countP_removed_zero]
      rw [countP_key_eq_one TableSchema.name hnd ht]
    · intro d hd hp
      obtain ⟨mk, n, rfl, hcase⟩ := mem_compare_schemas hd
      rcases hcase with hm | hm | hm
      · obtain ⟨x, hx, hfx⟩ := List.mem_filterMap.mp hm
        obtain ⟨-, hs⟩ := tableAddedCase_some hfx
        rw [hs n] at hp
        simp [isTableRemovedFor] at hp
      · obtain ⟨x, hx, hfx⟩ := List.mem_filterMap.mp hm
        obtain ⟨-, hs⟩ := tableRemovedCase_some hfx
        rw [hs n] at hp ⊢
        simp only [isTableRemovedFor, decide_eq_true_eq] at hp
        have hxeq : x = t := List.inj_on_of_nodup_map hnd hx ht hp.2
        simp [hxeq]
      · obtain ⟨s, -, t', -, hmk⟩ := mem_matchedMks hm
        have hfact := (tableMks_facts hmk n).2.2.2.2
        simp only [isTableRemovedFor, decide_eq_true_eq] at hp
        exact absurd hp.1 hfact

/-- C5 witness: source `a(x)`, target `b(y)` — one added, one removed. -/
theorem c5_table_added_removed_witness :
    ((compare_schemas [tableA] [tableB] mysqlGen).countP (isTableAddedFor "a") = 1
      ∧ (compare_schemas [tableA] [tableB] mysqlGen).countP (isTableRemovedFor "b") = 1) :=
  ⟨((c5_table_added_removed [tableA] [tableB] mysqlGen).1 (by decide) tableA (by decide)
      (by decide)).1,
   ((c5_table_added_removed [tableA] [tableB] mysqlGen).2 (by decide) tableB (by decide)
      (by decide)).1⟩

/-- C4: for a matched table pair with unique source-column names, a column
present on both sides (by the target lookup) that differs structurally
produces exactly one `ColumnModified` diff, whose SQL is
`generate_modify_column` of the source table name and the source column;
when the two columns are structurally equal, no column-kind diff at all is
emitted for that column name. -/
theorem c4_column_modified (s t : TableSchema) (g : SqlGenerator) (c : Nat) (col tcol : Column)
    (hnd : (s.columns.map Column.name).Nodup) (hmem : col ∈ s.columns)
    (hl : lookupBy Column.name t.columns col.name = some tcol) :
    (tcol ≠ col →
      ((compare_tables s t g c).1.countP (isColumnModifiedFor col.name) = 1
        ∧ ∀ d ∈ (compare_tables s t g c).1, isColumnModifiedFor col.name d = true →
            d.sql = g.generate_modify_column s.name col))
    ∧ (tcol = col → (compare_tables s t g c).1.countP (isColumnDiffFor col.name) = 0) := by
  constructor
  · intro hne
    constructor
    · simp only [compare_tables]
      rw [List.countP_append, List.countP_append, List.countP_append, List.countP_append,
        List.countP_append, List.countP_append, List.countP_append]
      have h1 : ∀ c', ((emitPass (columnCase g s.name t.columns) s.columns c').1).countP
          (isColumnModifiedFor col.name)
          = s.columns.countP (fun y => decide (y.name = col.name)) := by
        intro c'
        apply countP_emitPass
        intro x hx n
        cases hlx : lookupBy Column.name t.columns x.name with
        | none =>
          have hxn : x.name ≠ col.name := by
            intro hh
            rw [hh] at hlx
            rw [hlx] at hl
            exact Option.noConfusion hl
          simp only [columnCase, hlx]
          simp [isColumnModifiedFor, hxn]
        | some tc =>
          by_cases hxe : x = tc
          · have hxn : x.name ≠ col.name := by
              intro hh
              have hxcol : x = col := List.inj_on_of_nodup_map hnd hx hmem hh
              rw [hh] at hlx
              rw [hl] at hlx
              exact hne (by rw [Option.some.inj hlx, ← hxcol, hxe])
            simp only [columnCase, hlx, if_pos hxe]
            simp [hxn]
          · simp only [columnCase, hlx, if_neg hxe]
            simp [isColumnModifiedFor]
      have h2 : ∀ c', ((emitPass (columnRemovedCase g s.name s.columns) t.columns c').1).countP
          (isColumnModifiedFor col.name) = 0 := fun c' =>
        countP_emitPass_zero _ _ _ _ (fun x _ mk hfx n => by
          obtain ⟨-, hs⟩ := columnRemovedCase_some hfx
          rw [hs n]; rfl)
      have h3 : ∀ c', ((emitPass (indexCase g s.name t.indexes) s.indexes c').1).countP
          (isColumnModifiedFor col.name) = 0 := fun c' =>
        countP_emitPass_zero _ _ _ _ (fun x _ mk hfx n => by
          rcases indexCase_some hfx with ⟨-, hs⟩ | ⟨ti, -, -, hs⟩ <;> rw [hs n] <;> rfl)
      have h4 : ∀ c', ((emitPass (indexRemovedCase g s.name s.indexes) t.indexes c').1).countP
          (isColumnModifiedFor col.name) = 0 := fun c' =>
        countP_emitPass_zero _ _ _ _ (fun x _ mk hfx n => by
          obtain ⟨-, hs⟩ := indexRemovedCase_some hfx
          rw [hs n]; rfl)
      have h5 : ∀ c', ((emitPass (fkAddedCase g s.name t.foreign_keys) s.foreign_keys c').1).countP
          (isColumnModifiedFor col.name) = 0 := fun c' =>
        countP_emitPass_zero _ _ _ _ (fun x _ mk hfx n => by
          obtain ⟨-, hs⟩ := fkAddedCase_some hfx
          rw [hs n]; rfl)
      have h6 : ∀ c', ((emitPass (fkRemovedCase g s.name s.foreign_keys) t.foreign_keys c').1).countP
          (isColumnModifiedFor col.name) = 0 := fun c' =>
        countP_emitPass_zero _ _ _ _ (fun x _ mk hfx n => by
          obtain ⟨-, hs⟩ := fkRemovedCase_some hfx
          rw [hs n]; rfl)
      have h7 : ∀ c', ((emitPass (ucAddedCase g s.name t.unique_constraints)
          s.unique_constraints c').1).countP (isColumnModifiedFor col.name) = 0 := fun c' =>
        countP_emitPass_zero _ _ _ _ (fun x _ mk hfx n => by
          obtain ⟨-, hs⟩ := ucAddedCase_some hfx
          rw [hs n]; rfl)
      have h8 : ∀ c', ((emitPass (ucRemovedCase g s.name s.unique_constraints)
          t.unique_constraints c').1).countP (isColumnModifiedFor col.name) = 0 := fun c' =>
        countP_emitPass_zero _ _ _ _ (fun x _ mk hfx n => by
          obtain ⟨-, hs⟩ := ucRemovedCase_some hfx
          rw [hs n]; rfl)
      rw [h1, h2, h3, h4, h5, h6, h7, h8, countP_key_eq_one Column.name hnd hmem]
    · intro d hd hp
      obtain ⟨mk, hmk, n, rfl⟩ := mem_compare_tables hd
      simp only [tableMks, List.mem_append, List.mem_filterMap] at hmk
      rcases hmk with (((((((⟨x, hx, hfx⟩ | ⟨x, -, hfx⟩) | ⟨x, -, hfx⟩) | ⟨x, -, hfx⟩)
        | ⟨x, -, hfx⟩) | ⟨x, -, hfx⟩) | ⟨x, -, hfx⟩) | ⟨x, -, hfx⟩)
      · rcases columnCase_some hfx with ⟨-, hs⟩ | ⟨tc, hlx, hxe, hs⟩
        · rw [hs n] at hp
          simp [isColumnModifiedFor] at hp
        · rw [hs n] at hp ⊢
          simp only [isColumnModifiedFor, decide_eq_true_eq, Option.some.injEq] at hp
          have hxcol : x = col := List.inj_on_of_nodup_map hnd hx hmem hp.2
          simp [hxcol]
      · obtain ⟨-, hs⟩ := columnRemovedCase_some hfx
        rw [hs n] at hp
        simp [isColumnModifiedFor] at hp
      · rcases indexCase_some hfx with ⟨-, hs⟩ | ⟨ti, -, -, hs⟩ <;> rw [hs n] at hp <;>
          simp [isColumnModifiedFor] at hp
      · obtain ⟨-, hs⟩ := indexRemovedCase_some hfx
        rw [hs n] at hp
        simp [isColumnModifiedFor] at hp
      · obtain ⟨-, hs⟩ := fkAddedCase_some hfx
        rw [hs n] at hp
        simp [isColumnModifiedFor] at hp
      · obtain ⟨-, hs⟩ := fkRemovedCase_some hfx
        rw [hs n] at hp
        simp [isColumnModifiedFor] at hp
      · obtain ⟨-, hs⟩ := ucAddedCase_some hfx
        rw [hs n] at hp
        simp [isColumnModifiedFor] at hp
      · obtain ⟨-, hs⟩ := ucRemovedCase_some hfx
        rw [hs n] at hp
        simp [isColumnModifiedFor] at hp
  · intro heq
    simp only [compare_tables]
    rw [List.countP_append, List.countP_append, List.countP_append, List.countP_append,
      List.countP_append, List.countP_append, List.countP_append]
    have h1 : ∀ c', ((emitPass (columnCase g s.name t.columns) s.columns c').1).countP
        (isColumnDiffFor col.name) = 0 := by
      intro c'
      apply countP_emitPass_zero
      intro x hx mk hfx n
      rcases columnCase_some hfx with ⟨hlx, hs⟩ | ⟨tc, hlx, hxe, hs⟩
      · have hxn : x.name ≠ col.name := by
          intro hh
          rw [hh] at hlx
          rw [hlx] at hl
          exact Option.noConfusion hl
        rw [hs n]
        simp [isColumnDiffFor, hxn]
      · have hxn : x.name ≠ col.name := by
          intro hh
          have hxcol : x = col := List.inj_on_of_nodup_map hnd hx hmem hh
          rw [hh] at hlx
          rw [hl] at hlx
          exact hxe (by rw [hxcol, ← Option.some.inj hlx, heq])
        rw [hs n]
        simp [isColumnDiffFor, hxn]
    have h2 : ∀ c', ((emitPass (columnRemovedCase g s.name s.columns) t.columns c').1).countP
        (isColumnDiffFor col.name) = 0 := by
      intro c'
      apply countP_emitPass_zero
      intro x _ mk hfx n
      obtain ⟨hcb, hs⟩ := columnRemovedCase_some hfx
      have hxn : x.name ≠ col.name := by
        intro hh
        rw [hh] at hcb
        have hct := containsBy_of_mem Column.name hmem
        rw [hcb] at hct
        exact Bool.noConfusion hct
      rw [hs n]
      simp [isColumnDiffFor, hxn]
    have h3 : ∀ c', ((emitPass (indexCase g s.name t.indexes) s.indexes c').1).countP
        (isColumnDiffFor col.name) = 0 := fun c' =>
      countP_emitPass_zero _ _ _ _ (fun x _ mk hfx n => by
        rcases indexCase_some hfx with ⟨-, hs⟩ | ⟨ti, -, -, hs⟩ <;> rw [hs n] <;> rfl)
    have h4 : ∀ c', ((emitPass (indexRemovedCase g s.name s.indexes) t.indexes c').1).countP
        (isColumnDiffFor col.name) = 0 := fun c' =>
      countP_emitPass_zero _ _ _ _ (fun x _ mk hfx n => by
        obtain ⟨-, hs⟩ := indexRemovedCase_some hfx
        rw [hs n]; rfl)
    have h5 : ∀ c', ((emitPass (fkAddedCase g s.name t.foreign_keys) s.foreign_keys c').1).countP
        (isColumnDiffFor col.name) = 0 := fun c' =>
      countP_emitPass_zero _ _ _ _ (fun x _ mk hfx n => by
        obtain ⟨-, hs⟩ := fkAddedCase_some hfx
        rw [hs n]; rfl)
    have h6 : ∀ c', ((emitPass (fkRemovedCase g s.name s.foreign_keys) t.foreign_keys c').1).countP
        (isColumnDiffFor col.name) = 0 := fun c' =>
      countP_emitPass_zero _ _ _ _ (fun x _ mk hfx n => by
        obtain ⟨-, hs⟩ := fkRemovedCase_some hfx
        rw [hs n]; rfl)
    have h7 : ∀ c', ((emitPass (ucAddedCase g s.name t.unique_constraints)
        s.unique_constraints c').1).countP (isColumnDiffFor col.name) = 0 := fun c' =>
      countP_emitPass_zero _ _ _ _ (fun x _ mk hfx n => by
        obtain ⟨-, hs⟩ := ucAddedCase_some hfx
        rw [hs n]; rfl)
    have h8 : ∀ c', ((emitPass (ucRemovedCase g s.name s.unique_constraints)
        t.unique_constraints c').1).countP (isColumnDiffFor col.name) = 0 := fun c' =>
      countP_emitPass_zero _ _ _ _ (fun x _ mk hfx n => by
        obtain ⟨-, hs⟩ := ucRemovedCase_some hfx
        rw [hs n]; rfl)
    rw [h1, h2, h3, h4, h5, h6, h7, h8]

/-- C4 witness: matched `users` tables, `email` changes type from
`VARCHAR(255)` to `VARCHAR(200)`. -/
theorem c4_column_modified_witness :
    lookupBy Column.name usersTgt.columns "email" = some (exCol "email" "VARCHAR(200)" 1)
    ∧ (compare_tables usersSrc usersTgt mysqlGen 0).1.countP (isColumnModifiedFor "email") = 1 :=
  ⟨by decide,
   ((c4_column_modified usersSrc usersTgt mysqlGen 0 (exCol "email" "VARCHAR(255)" 1)
      (exCol "email" "VARCHAR(200)" 1) (by decide) (by decide) (by decide)).1 (by decide)).1⟩

/-- C6: for a matched table pair with unique source-index names, an index
present on both sides under the same name but structurally different
produces exactly one `IndexModified` diff, whose SQL is the drop-index
statement, a newline, then the add-index statement for the source index. -/
theorem c6_index_modified (s t : TableSchema) (g : SqlGenerator) (c : Nat) (idx tidx : Index)
    (hnd : (s.indexes.map Index.name).Nodup) (hmem : idx ∈ s.indexes)
    (hl : lookupBy Index.name t.indexes idx.name = some tidx) (hne : tidx ≠ idx) :
    (compare_tables s t g c).1.countP (isIndexModifiedFor idx.name) = 1
    ∧ ∀ d ∈ (compare_tables s t g c).1, isIndexModifiedFor idx.name d = true →
        d.sql = g.generate_drop_index s.name idx.name ++ "\n" ++ g.generate_add_index s.name idx := by
  constructor
  · simp only [compare_tables]
    rw [List.countP_append, List.countP_append, List.countP_append, List.countP_append,
      List.countP_append, List.countP_append, List.countP_append]
    have h1 : ∀ c', ((emitPass (columnCase g s.name t.columns) s.columns c').1).countP
        (isIndexModifiedFor idx.name) = 0 := fun c' =>
      countP_emitPass_zero _ _ _ _ (fun x _ mk hfx n => by
        rcases columnCase_some hfx with ⟨-, hs⟩ | ⟨tc, -, -, hs⟩ <;> rw [hs n] <;> rfl)
    have h2 : ∀ c', ((emitPass (columnRemovedCase g s.name s.columns) t.columns c').1).countP
        (isIndexModifiedFor idx.name) = 0 := fun c' =>
      countP_emitPass_zero _ _ _ _ (fun x _ mk hfx n => by
        obtain ⟨-, hs⟩ := columnRemovedCase_some hfx
        rw [hs n]; rfl)
    have h3 : ∀ c', ((emitPass (indexCase g s.name t.indexes) s.indexes c').1).countP
        (isIndexModifiedFor idx.name)
        = s.indexes.countP (fun y => decide (y.name = idx.name)) := by
      intro c'
      apply countP_emitPass
      intro x hx n
      cases hlx : lookupBy Index.name t.indexes x.name with
      | none =>
        have hxn : x.name ≠ idx.name := by
          intro hh
          rw [hh] at hlx
          rw [hlx] at hl
          exact Option.noConfusion hl
        simp only [indexCase, hlx]
        simp [isIndexModifiedFor, hxn]
      | some ti =>
        by_cases hxe : x = ti
        · have hxn : x.name ≠ idx.name := by
            intro hh
            have hxidx : x = idx := List.inj_on_of_nodup_map hnd hx hmem hh
            rw [hh] at hlx
            rw [hl] at hlx
            exact hne (by rw [Option.some.inj hlx, ← hxidx, hxe])
          simp only [indexCase, hlx, if_pos hxe]
          simp [hxn]
        · simp only [indexCase, hlx, if_neg hxe]
          simp [isIndexModifiedFor]
    have h4 : ∀ c', ((emitPass (indexRemovedCase g s.name s.indexes) t.indexes c').1).countP
        (isIndexModifiedFor idx.name) = 0 := fun c' =>
      countP_emitPass_zero _ _ _ _ (fun x _ mk hfx n => by
        obtain ⟨-, hs⟩ := indexRemovedCase_some hfx
        rw [hs n]; rfl)
    have h5 : ∀ c', ((emitPass (fkAddedCase g s.name t.foreign_keys) s.foreign_keys c').1).countP
        (isIndexModifiedFor idx.name) = 0 := fun c' =>
      countP_emitPass_zero _ _ _ _ (fun x _ mk hfx n => by
        obtain ⟨-, hs⟩ := fkAddedCase_some hfx
        rw [hs n]; rfl)
    have h6 : ∀ c', ((emitPass (fkRemovedCase g s.name s.foreign_keys) t.foreign_keys c').1).countP
        (isIndexModifiedFor idx.name) = 0 := fun c' =>
      countP_emitPass_zero _ _ _ _ (fun x _ mk hfx n => by
        obtain ⟨-, hs⟩ := fkRemovedCase_some hfx
        rw [hs n]; rfl)
    have h7 : ∀ c', ((emitPass (ucAddedCase g s.name t.unique_constraints)
        s.unique_constraints c').1).countP (isIndexModifiedFor idx.name) = 0 := fun c' =>
      countP_emitPass_zero _ _ _ _ (fun x _ mk hfx n => by
        obtain ⟨-, hs⟩ := ucAddedCase_some hfx
        rw [hs n]; rfl)
    have h8 : ∀ c', ((emitPass (ucRemovedCase g s.name s.unique_constraints)
        t.unique_constraints c').1).countP (isIndexModifiedFor idx.name) = 0 := fun c' =>
      countP_emitPass_zero _ _ _ _ (fun x _ mk hfx n => by
        obtain ⟨-, hs⟩ := ucRemovedCase_some hfx
        rw [hs n]; rfl)
    rw [h1, h2, h3, h4, h5, h6, h7, h8, countP_key_eq_one Index.name hnd hmem]
  · intro d hd hp
    obtain ⟨mk, hmk, n, rfl⟩ := mem_compare_tables hd
    simp only [tableMks, List.mem_append, List.mem_filterMap] at hmk
    rcases hmk with (((((((⟨x, -, hfx⟩ | ⟨x, -, hfx⟩) | ⟨x, hx, hfx⟩) | ⟨x, -, hfx⟩)
      | ⟨x, -, hfx⟩) | ⟨x, -, hfx⟩) | ⟨x, -, hfx⟩) | ⟨x, -, hfx⟩)
    · rcases columnCase_some hfx with ⟨-, hs⟩ | ⟨tc, -, -, hs⟩ <;> rw [hs n] at hp <;>
        simp [isIndexModifiedFor] at hp
    · obtain ⟨-, hs⟩ := columnRemovedCase_some hfx
      rw [hs n] at hp
      simp [isIndexModifiedFor] at hp
    · rcases indexCase_some hfx with ⟨-, hs⟩ | ⟨ti, -, -, hs⟩
      · rw [hs n] at hp
        simp [isIndexModifiedFor] at hp
      · rw [hs n] at hp ⊢
        simp only [isIndexModifiedFor, decide_eq_true_eq, Option.some.injEq] at hp
        have hxidx : x = idx := List.inj_on_of_nodup_map hnd hx hmem hp.2
        simp [hxidx]
    · obtain ⟨-, hs⟩ := indexRemovedCase_some hfx
      rw [hs n] at hp
      simp [isIndexModifiedFor] at hp
    · obtain ⟨-, hs⟩ := fkAddedCase_some hfx
      rw [hs n] at hp
      simp [isIndexModifiedFor] at hp
    · obtain ⟨-, hs⟩ := fkRemovedCase_some hfx
      rw [hs n] at hp
      simp [isIndexModifiedFor] at hp
    · obtain ⟨-, hs⟩ := ucAddedCase_some hfx
      rw [hs n] at hp
      simp [isIndexModifiedFor] at hp
    · obtain ⟨-, hs⟩ := ucRemovedCase_some hfx
      rw [hs n] at hp
      simp [isIndexModifiedFor] at hp

/-- C6 witness: `idx_email` flips its `unique` flag between target and
source — one `IndexModified` diff. -/
theorem c6_index_modified_witness :
    lookupBy Index.name usersIdxTgt.indexes "idx_email" = some idxEmailUnique
    ∧ idxEmailUnique ≠ idxEmail
    ∧ (compare_tables usersIdxSrc usersIdxTgt mysqlGen 0).1.countP
        (isIndexModifiedFor "idx_email") = 1 :=
  ⟨by decide, by decide,
   (c6_index_modified usersIdxSrc usersIdxTgt mysqlGen 0 idxEmail idxEmailUnique
      (by decide) (by decide) (by decide) (by decide)).1⟩

/-- C10: when no target table is named `X`, the comparator emits one
`TableAdded` diff per source-list occurrence of a table named `X` — the
added-tables pass iterates the input sequence directly, so duplicate
source tables are not deduplicated, skipped, or rejected. -/
theorem c10_duplicate_table_added (source target : List TableSchema) (g : SqlGenerator)
    (X : String) (h : containsBy TableSchema.name target X = false) :
    (compare_schemas source target g).countP (isTableAddedFor X)
      = source.countP (fun y => decide (y.name = X)) := by
  simp only [compare_schemas]
  rw [List.countP_append, List.countP_append, addedPass_countP g source target X h,
    removedPass_countP_added_zero, matched_countP_added_zero]
  omega

/-- C10 witness: two source tables both named `a`, empty target — two
`TableAdded` diffs are emitted. -/
theorem c10_duplicate_table_added_witness :
    containsBy TableSchema.name ([] : List TableSchema) "a" = false
    ∧ (compare_schemas [tableA, tableA2] [] mysqlGen).countP (isTableAddedFor "a") = 2 :=
  ⟨by decide,
   by rw [c10_duplicate_table_added [tableA, tableA2] [] mysqlGen "a" (by decide)]; decide⟩

end DbSync
